import Mathlib

/-!
# Verification of the forensic-summarizer core against its specification

Shallow embedding of the repository's core (backend/state.py,
backend/classifiers.py, backend/summarizer.py, backend/config.py and the
resume logic of UI/dossier_documents_window.py), together with theorems
settling the specification's claims about it.

Conventions of the embedding:
* Python `str` values that are processed character by character are modeled
  as `List Char` (named `Str` below); strings that are only stored and
  compared are modeled as Lean `String`.
* `pathlib.Path` values are modeled by their canonical string form
  (`str(Path(...))`), which in Python is never the empty string.
* Python floats that appear only as heuristic ratios are modeled by exact
  rational/natural arithmetic; the places where this matters are marked.
* `json.dump` followed by `json.load` is modeled as the identity on a
  JSON value type `JVal`.
* Wall-clock timestamps (`_now_iso()`) are threaded as explicit `now`
  arguments; `uuid4` ids are caller-supplied arguments.
-/

namespace FS

/-- Character-list model of Python `str` for text processing. -/
abbrev Str := List Char

/-- Decidable equality on `Except`, so closed runs of fallible code can be
checked by `decide`. -/
instance {ε α : Type} [DecidableEq ε] [DecidableEq α] :
    DecidableEq (Except ε α) := fun x y =>
  match x, y with
  | .error a, .error b =>
    if h : a = b then .isTrue (by rw [h])
    else .isFalse (by intro hc; cases hc; exact h rfl)
  | .error _, .ok _ => .isFalse (by intro hc; cases hc)
  | .ok _, .error _ => .isFalse (by intro hc; cases hc)
  | .ok a, .ok b =>
    if h : a = b then .isTrue (by rw [h])
    else .isFalse (by intro hc; cases hc; exact h rfl)

/-- Python `\s` / `str.strip` whitespace set (ASCII part, which is all the
code paths under study ever meet). -/
def isPyWs (c : Char) : Bool :=
  c = ' ' || c = '\t' || c = '\n' || c = '\r' || c = '\x0b' || c = '\x0c'

/-- Python `str.strip()`: drop leading and trailing whitespace. -/
def pyStrip (s : Str) : Str :=
  ((s.dropWhile isPyWs).reverse.dropWhile isPyWs).reverse

/-- `str.strip()` on the `String` wrapper. -/
def strStrip (s : String) : String :=
  ⟨pyStrip s.toList⟩

-- ---------------------------------------------------------------------------
-- backend/state.py : status constants
-- ---------------------------------------------------------------------------

def DOC_STATUS_EXTRACTED : String := "extracted"
def DOC_STATUS_DETECTED : String := "detected"
def DOC_STATUS_QUEUED : String := "queued"
def DOC_STATUS_SUMMARIZING : String := "summarizing"
def DOC_STATUS_SUMMARIZED : String := "summarized"
def DOC_STATUS_ERROR : String := "error"
def DOC_STATUS_SKIPPED : String := "skipped"

def MODEL_STATUS_READY : String := "ready"
def MODEL_STATUS_MISSING : String := "missing"
def MODEL_STATUS_DOWNLOADING : String := "downloading"
def MODEL_STATUS_ERROR : String := "error"

-- ---------------------------------------------------------------------------
-- JSON value model (what json.dump writes / json.load reads)
-- ---------------------------------------------------------------------------

/-- JSON-like values as produced by `to_dict` and consumed by `from_dict`.
Python floats are modeled as rationals (`json` round-trips them exactly). -/
inductive JVal where
  | null : JVal
  | jbool : Bool → JVal
  | jint : Int → JVal
  | jnum : ℚ → JVal
  | jstr : String → JVal
  | jarr : List JVal → JVal
  | jobj : List (String × JVal) → JVal

/-- A JSON object body (Python dict with string keys). -/
abbrev JDict := List (String × JVal)

/-- Python `dict.get(key, default)`. -/
def dget : JDict → String → JVal → JVal
  | [], _, dflt => dflt
  | (k, v) :: rest, key, dflt => if k = key then v else dget rest key dflt

/-- Python `key in dict` / `dict[key]` success: first binding if present. -/
def dfind : JDict → String → Option JVal
  | [], _ => none
  | (k, v) :: rest, key => if k = key then some v else dfind rest key

/-- Extract a `str` field (the manifests written by `to_dict` always store
strings in these slots; other shapes collapse to the default). -/
def getStr (d : JDict) (key : String) (dflt : String) : String :=
  match dget d key (.jstr dflt) with
  | .jstr s => s
  | _ => dflt

/-- Extract an optional string field (`d.get(key)`, `None` when absent/null). -/
def getOptStr (d : JDict) (key : String) : Option String :=
  match dget d key .null with
  | .jstr s => some s
  | _ => none

/-- Python truthiness on JSON values, for `bool(...)` and `x or y`. -/
def pyTruthy : JVal → Bool
  | .null => false
  | .jbool b => b
  | .jint n => n != 0
  | .jnum q => q != 0
  | .jstr s => s != ""
  | .jarr xs => !xs.isEmpty
  | .jobj kvs => !kvs.isEmpty

-- ---------------------------------------------------------------------------
-- Path helpers (state.py `_to_path` / `_path_str`)
-- ---------------------------------------------------------------------------

/-- Paths are modeled by their canonical string form, which is never `""`. -/
abbrev PPath := String

/-- `_to_path`: `None`/`""` (falsy) parse to `None`, other strings to a path. -/
def _to_path : JVal → Option PPath
  | .jstr s => if s = "" then none else some s
  | _ => none

/-- `_path_str`: `None ↦ None`, path ↦ its string. -/
def _path_str : Option PPath → JVal
  | none => .null
  | some p => .jstr p

/-- Serialize an optional plain string (e.g. `updated_at` slots). -/
def optStrJ : Option String → JVal
  | none => .null
  | some s => .jstr s

/-- Serialize an optional float slot (`detected_confidence`). -/
def optNumJ : Option ℚ → JVal
  | none => .null
  | some q => .jnum q

/-- Read back an optional float slot. -/
def getOptNum (d : JDict) (key : String) : Option ℚ :=
  match dget d key .null with
  | .jnum q => some q
  | _ => none

-- ---------------------------------------------------------------------------
-- backend/state.py : data structures
-- ---------------------------------------------------------------------------

structure UserState where
  email : String := ""
deriving DecidableEq

structure ModelState where
  name : String := ""
  status : String := MODEL_STATUS_MISSING
  path : Option PPath := none
  last_checked_at : Option String := none
  error_message : String := ""
deriving DecidableEq

def ModelState.to_dict (m : ModelState) : JDict :=
  [ ("name", .jstr m.name),
    ("status", .jstr m.status),
    ("path", _path_str m.path),
    ("last_checked_at", optStrJ m.last_checked_at),
    ("error_message", .jstr m.error_message) ]

def ModelState.from_dict (d : JDict) : ModelState :=
  { name := getStr d "name" ""
    status := getStr d "status" MODEL_STATUS_MISSING
    path := _to_path (dget d "path" .null)
    last_checked_at := getOptStr d "last_checked_at"
    error_message := getStr d "error_message" "" }

structure SummaryState where
  txt_path : Option PPath := none
  json_path : Option PPath := none
  updated_at : Option String := none
  error_message : String := ""
deriving DecidableEq

def SummaryState.to_dict (s : SummaryState) : JDict :=
  [ ("txt_path", _path_str s.txt_path),
    ("json_path", _path_str s.json_path),
    ("updated_at", optStrJ s.updated_at),
    ("error_message", .jstr s.error_message) ]

def SummaryState.from_dict (d : JDict) : SummaryState :=
  { txt_path := _to_path (dget d "txt_path" .null)
    json_path := _to_path (dget d "json_path" .null)
    updated_at := getOptStr d "updated_at"
    error_message := getStr d "error_message" "" }

structure DocumentState where
  doc_id : String
  original_name : String := ""
  source_path : PPath := ""
  file_ext : String := ""
  detected_type : String := ""
  detected_confidence : Option ℚ := none
  type_override : String := ""
  selected : Bool := true
  status : String := DOC_STATUS_DETECTED
  summary : SummaryState := {}
  error_message : String := ""
deriving DecidableEq

/-- `final_type`: the override wins; Python `a or b or ""` then `.strip()`. -/
def DocumentState.final_type (d : DocumentState) : String :=
  strStrip (if d.type_override ≠ "" then d.type_override
            else if d.detected_type ≠ "" then d.detected_type else "")

def DocumentState.to_dict (d : DocumentState) : JDict :=
  [ ("doc_id", .jstr d.doc_id),
    ("original_name", .jstr d.original_name),
    ("source_path", .jstr d.source_path),
    ("file_ext", .jstr d.file_ext),
    ("detected_type", .jstr d.detected_type),
    ("detected_confidence", optNumJ d.detected_confidence),
    ("type_override", .jstr d.type_override),
    ("selected", .jbool d.selected),
    ("status", .jstr d.status),
    ("summary", .jobj d.summary.to_dict),
    ("error_message", .jstr d.error_message) ]

/-- `DocumentState.from_dict`; `d["doc_id"]` raises `KeyError` when the key is
missing, modeled as `none`. -/
def DocumentState.from_dict (d : JDict) : Option DocumentState :=
  match dfind d "doc_id" with
  | none => none
  | some idv =>
    some
      { doc_id := match idv with | .jstr s => s | _ => ""
        original_name := getStr d "original_name" ""
        source_path := getStr d "source_path" ""
        file_ext := getStr d "file_ext" ""
        detected_type := getStr d "detected_type" ""
        detected_confidence := getOptNum d "detected_confidence"
        type_override := getStr d "type_override" ""
        selected := pyTruthy (dget d "selected" (.jbool true))
        status := getStr d "status" DOC_STATUS_DETECTED
        summary :=
          match dget d "summary" (.jobj []) with
          | .jobj kvs => SummaryState.from_dict kvs
          | _ => SummaryState.from_dict []    -- `(d.get("summary", {}) or {})`
        error_message := getStr d "error_message" "" }

structure CaseState where
  case_id : String := ""
  case_dir : Option PPath := none
  source_zip_path : Option PPath := none
  extracted_dir : Option PPath := none
  summaries_dir : Option PPath := none
  final_dir : Option PPath := none
  selected_zip_path : Option PPath := none
  final_report_path : Option PPath := none
  archive_created_at : Option String := none
deriving DecidableEq

def CaseState.to_dict (c : CaseState) : JDict :=
  [ ("case_id", .jstr c.case_id),
    ("case_dir", _path_str c.case_dir),
    ("source_zip_path", _path_str c.source_zip_path),
    ("extracted_dir", _path_str c.extracted_dir),
    ("summaries_dir", _path_str c.summaries_dir),
    ("final_dir", _path_str c.final_dir),
    ("selected_zip_path", _path_str c.selected_zip_path),
    ("final_report_path", _path_str c.final_report_path),
    ("archive_created_at", optStrJ c.archive_created_at) ]

def CaseState.from_dict (d : JDict) : CaseState :=
  { case_id := getStr d "case_id" ""
    case_dir := _to_path (dget d "case_dir" .null)
    source_zip_path := _to_path (dget d "source_zip_path" .null)
    extracted_dir := _to_path (dget d "extracted_dir" .null)
    summaries_dir := _to_path (dget d "summaries_dir" .null)
    final_dir := _to_path (dget d "final_dir" .null)
    selected_zip_path := _to_path (dget d "selected_zip_path" .null)
    final_report_path := _to_path (dget d "final_report_path" .null)
    archive_created_at := getOptStr d "archive_created_at" }

structure SettingsState where
  language : String := "nl"
  output_formats : List String := ["txt", "json", "pdf"]
deriving DecidableEq

def SettingsState.to_dict (s : SettingsState) : JDict :=
  [ ("language", .jstr s.language),
    ("output_formats", .jarr (s.output_formats.map .jstr)) ]

def SettingsState.from_dict (d : JDict) : SettingsState :=
  { language := getStr d "language" "nl"
    output_formats :=
      match dget d "output_formats" (.jarr (["txt", "json", "pdf"].map .jstr)) with
      | .jarr xs => xs.map (fun v => match v with | .jstr s => s | _ => "")
      | _ => [] }

structure AppState where
  user : UserState := {}
  model : ModelState := {}
  case : CaseState := {}
  documents : List DocumentState := []
  settings : SettingsState := {}
  version : Int := 1
  updated_at : String := ""
deriving DecidableEq

/-- `AppState.touch`: refresh `updated_at` with the current time. -/
def AppState.touch (st : AppState) (now : String) : AppState :=
  { st with updated_at := now }

def AppState.to_dict (st : AppState) : JDict :=
  [ ("version", .jint st.version),
    ("updated_at", .jstr st.updated_at),
    ("user", .jobj [("email", .jstr st.user.email)]),
    ("model", .jobj st.model.to_dict),
    ("case", .jobj st.case.to_dict),
    ("documents", .jarr (st.documents.map (fun d => .jobj d.to_dict))),
    ("settings", .jobj st.settings.to_dict) ]

/-- `int(...)` coercion used on the `version` slot. -/
def pyIntOf (v : JVal) (dflt : Int) : Int :=
  match v with
  | .jint n => n
  | .jnum q => if q ≥ 0 then ⌊q⌋ else -⌊-q⌋
  | _ => dflt

/-- `AppState.from_dict`.  `now` stands for the `_now_iso()` default that
Python would substitute when `updated_at` is missing.  Fails (`none`) exactly
when some document entry lacks a `doc_id` (Python: `KeyError`). -/
def AppState.from_dict (now : String) (d : JDict) : Option AppState := do
  let docsJ :=
    match dget d "documents" (.jarr []) with
    | .jarr xs => xs
    | _ => []
  let docs ← docsJ.mapM (fun x =>
    match x with
    | .jobj kvs => DocumentState.from_dict kvs
    | _ => none)
  pure
    { version := pyIntOf (dget d "version" (.jint 1)) 1
      updated_at := match dget d "updated_at" (.jstr now) with
                    | .jstr s => s
                    | _ => now
      user := { email := match dget d "user" (.jobj []) with
                         | .jobj kvs => getStr kvs "email" ""
                         | _ => "" }
      model := ModelState.from_dict (match dget d "model" (.jobj []) with
                                     | .jobj kvs => kvs
                                     | _ => [])
      case := CaseState.from_dict (match dget d "case" (.jobj []) with
                                   | .jobj kvs => kvs
                                   | _ => [])
      documents := docs
      settings := SettingsState.from_dict (match dget d "settings" (.jobj []) with
                                           | .jobj kvs => kvs
                                           | _ => []) }

/-- `AppState.manifest_path`. -/
def AppState.manifest_path (st : AppState) : Option PPath :=
  match st.case.case_dir with
  | none => none
  | some cd => some (cd ++ "/manifest.json")

-- ---------------------------------------------------------------------------
-- Filesystem-operation trace model (for save_manifest / atomicity)
-- ---------------------------------------------------------------------------

/-- `Path(p).parent` on the canonical string form: drop the last component. -/
def pathParentStr (p : String) : String :=
  let cs := p.toList
  if cs.contains '/' then
    ⟨(cs.reverse.dropWhile (· ≠ '/')).reverse.dropLast⟩
  else "."

/-- The filesystem operations the persistence layer can issue. -/
inductive FsOp where
  | mkdirp (p : PPath)
  | write (p : PPath) (content : JDict)
  | replace (src dst : PPath)

/-- The directories `AppState.ensure_case_dirs` creates, in order. -/
def AppState.ensure_case_dirs_paths (st : AppState) : List PPath :=
  match st.case.case_dir with
  | none => []
  | some cd =>
    [cd]
    ++ (match st.case.extracted_dir with | some p => [p] | none => [])
    ++ (match st.case.summaries_dir with | some p => [p] | none => [])
    ++ (match st.case.final_dir with | some p => [p] | none => [])
    ++ (match st.case.selected_zip_path with
        | some p => [pathParentStr p]
        | none => [])

/-- `AppState.ensure_case_dirs`, as the trace of mkdir operations it issues. -/
def AppState.ensure_case_dirs_ops (st : AppState) : List FsOp :=
  st.ensure_case_dirs_paths.map FsOp.mkdirp

/-- `AppState.save_manifest`: ensure directories, `touch`, then write the
serialized manifest with a single direct `open("w")`/`json.dump` into
`manifest.json`.  Returns the touched state, the trace of filesystem
operations, and the manifest path; `none` when `case_dir` is unset
(Python raises `RuntimeError`). -/
def AppState.save_manifest (st : AppState) (now : String) :
    Option (AppState × List FsOp × PPath) :=
  match st.manifest_path with
  | none => none
  | some mp =>
    let st' := st.touch now
    some (st', st.ensure_case_dirs_ops ++ [FsOp.write mp st'.to_dict], mp)

/-- `AppState.load_manifest`: parse the manifest file's JSON value and run
`from_dict` (the subsequent `ensure_case_dirs` only creates directories and
does not change the state). -/
def AppState.load_manifest (now : String) (content : JDict) : Option AppState :=
  AppState.from_dict now content

/-- On-disk state of one file. -/
inductive FileData where
  | absent : FileData
  | full (content : JDict) : FileData
  | truncated (content : JDict) : FileData

/-- Effect of one completed filesystem operation. -/
def applyFsOp (fs : PPath → FileData) : FsOp → (PPath → FileData)
  | .mkdirp _ => fs
  | .write p c => fun q => if q = p then .full c else fs q
  | .replace src dst =>
      fun q => if q = dst then fs src else if q = src then .absent else fs q

/-- Run a whole trace of filesystem operations. -/
def runFsOps (ops : List FsOp) (fs : PPath → FileData) : PPath → FileData :=
  ops.foldl applyFsOp fs

/-- Run a trace but crash in the middle of operation `k`: an interrupted
in-place `write` leaves a truncated file; the other operations are modeled as
atomic at the filesystem level. -/
def runFsOpsCrashAt : List FsOp → ℕ → (PPath → FileData) → (PPath → FileData)
  | [], _, fs => fs
  | op :: _, 0, fs =>
      (match op with
       | .write p c => fun q => if q = p then .truncated c else fs q
       | _ => fs)
  | op :: rest, k + 1, fs => runFsOpsCrashAt rest k (applyFsOp fs op)

/-- Modelled from the spec: "never partially written (writes must be atomic —
write-temp-then-replace)".  A trace writes `final` via write-temp-then-replace
when it never writes `final` in place, and the content instead arrives by
renaming a temporary file that the trace wrote first.  This definition follows
the spec's words and is compared against the trace `save_manifest` issues. -/
def WritesViaTempThenReplace (ops : List FsOp) (final : PPath) : Prop :=
  (∀ c, FsOp.write final c ∉ ops) ∧
  ∃ tmp c, tmp ≠ final ∧ FsOp.write tmp c ∈ ops ∧ FsOp.replace tmp final ∈ ops

-- ---------------------------------------------------------------------------
-- backend/state.py : document helpers
-- ---------------------------------------------------------------------------

/-- `Path(name).suffix` of a path's final component (dot included), as a
character list.  The suffix is empty when the last dot is the first or the
last character of the name. -/
def pathSuffixChars (name : Str) : Str :=
  match (List.range name.length).filter (fun i => name.getD i ' ' = '.') |>.getLast? with
  | none => []
  | some i => if 0 < i ∧ i < name.length - 1 then name.drop i else []

/-- `Path(p).name`: the final path component. -/
def pathNameChars (p : Str) : Str :=
  (p.reverse.takeWhile (· ≠ '/')).reverse

/-- `Path(p).stem`: final component without its suffix. -/
def pathStemChars (p : Str) : Str :=
  let n := pathNameChars p
  n.take (n.length - (pathSuffixChars n).length)

/-- ASCII `str.lower()` (the inputs under study are ASCII filenames). -/
def pyLower (s : Str) : Str := s.map Char.toLower

/-- `source_path.suffix.lower().lstrip(".")` used for `file_ext`. -/
def fileExtOf (source_path : PPath) : String :=
  ⟨(pyLower (pathSuffixChars (pathNameChars source_path.toList))).dropWhile (· = '.')⟩

/-- `AppState.add_document`.  The fresh `uuid4` id and the timestamp are
caller-supplied.  Returns the new state together with the created record. -/
def AppState.add_document (st : AppState) (doc_id : String) (original_name : String)
    (source_path : PPath) (detected_type : String) (detected_confidence : Option ℚ)
    (selected : Bool) (now : String) : AppState × DocumentState :=
  let doc : DocumentState :=
    { doc_id := doc_id
      original_name := original_name
      source_path := source_path
      file_ext := fileExtOf source_path
      detected_type := detected_type
      detected_confidence := detected_confidence
      type_override := ""
      selected := selected
      status := DOC_STATUS_DETECTED }
  ({ st with documents := st.documents ++ [doc], updated_at := now }, doc)

/-- `AppState.get_selected_documents`. -/
def AppState.get_selected_documents (st : AppState) : List DocumentState :=
  st.documents.filter (·.selected)

/-- `AppState.mark_archive_created_and_queue_selected`. -/
def AppState.mark_archive_created_and_queue_selected (st : AppState) (now : String) :
    AppState :=
  { st with
    case := { st.case with archive_created_at := some now }
    documents := st.documents.map (fun d =>
      if d.selected then { d with status := DOC_STATUS_QUEUED }
      else { d with status := DOC_STATUS_SKIPPED })
    updated_at := now }

-- ---------------------------------------------------------------------------
-- UI/dossier_documents_window.py : resume normalization / claiming
-- ---------------------------------------------------------------------------

/-- `DossierDocumentsWindow._summary_paths_for_doc`: expected artifact
locations `(json, txt)` for a document, from the case's summaries directory
and the stem of the document's source path. -/
def _summary_paths_for_doc (summaries_dir : PPath) (doc : DocumentState) :
    PPath × PPath :=
  let stem : String := ⟨pathStemChars doc.source_path.toList⟩
  (summaries_dir ++ "/" ++ stem ++ "_summary.json",
   summaries_dir ++ "/" ++ stem ++ "_summary.txt")

/-- The artifact-existence check of `_normalize_resume_state`: `txt` or `json`
exists.  The `except` handler (summaries_dir unset) yields `False`.  `fs`
tells which paths exist on disk. -/
def summaryArtifactsExist (summaries_dir : Option PPath) (fs : PPath → Bool)
    (doc : DocumentState) : Bool :=
  match summaries_dir with
  | none => false
  | some sd =>
    let p := _summary_paths_for_doc sd doc
    fs p.2 || fs p.1

/-- One document's pass of `DossierDocumentsWindow._normalize_resume_state`:
the new record plus whether this document changed. -/
def normalizeDoc (summaries_dir : Option PPath) (fs : PPath → Bool)
    (doc : DocumentState) : DocumentState × Bool :=
  if doc.selected = false ∧ doc.status ≠ DOC_STATUS_SKIPPED then
    ({ doc with status := DOC_STATUS_SKIPPED }, true)
  else if doc.selected ∧ summaryArtifactsExist summaries_dir fs doc ∧
      doc.status ≠ DOC_STATUS_SUMMARIZED then
    ({ doc with status := DOC_STATUS_SUMMARIZED, error_message := "" }, true)
  else if doc.selected ∧ doc.status = DOC_STATUS_SUMMARIZING then
    ({ doc with status := DOC_STATUS_QUEUED, error_message := "" }, true)
  else if doc.selected ∧
      (doc.status = DOC_STATUS_DETECTED ∨ doc.status = DOC_STATUS_EXTRACTED) then
    ({ doc with status := DOC_STATUS_QUEUED }, true)
  else (doc, false)

/-- `_normalize_resume_state` over the whole ledger: the normalized documents
plus the `changed` flag (when it is set the window saves the manifest). -/
def normalizeDocs (summaries_dir : Option PPath) (fs : PPath → Bool)
    (docs : List DocumentState) : List DocumentState × Bool :=
  let results := docs.map (normalizeDoc summaries_dir fs)
  (results.map Prod.fst, results.any Prod.snd)

/-- `DossierDocumentsWindow._normalize_resume_state` on the app state: the
normalized state and whether `save_manifest` was triggered. -/
def _normalize_resume_state (st : AppState) (fs : PPath → Bool) :
    AppState × Bool :=
  let r := normalizeDocs st.case.summaries_dir fs st.documents
  ({ st with documents := r.1 }, r.2)

/-- `start_auto_summarization`'s claim step: the first document whose status
is `queued`, in batch (insertion) order. -/
def next_queued (docs : List DocumentState) : Option DocumentState :=
  docs.find? (fun d => d.status == DOC_STATUS_QUEUED)

/-- The per-document status update pattern of `_start_summarization_for_doc`,
`_on_worker_error` and `_on_worker_finished`: mutate the record with the given
`doc_id` (status, and optionally error text). -/
def set_doc_status (docs : List DocumentState) (doc_id : String)
    (status : String) (error_message : String) : List DocumentState :=
  docs.map (fun d =>
    if d.doc_id = doc_id then { d with status := status, error_message := error_message }
    else d)

-- ---------------------------------------------------------------------------
-- Invariant of claim C3
-- ---------------------------------------------------------------------------

/-- "a document with `selected = false` must always carry status `skipped`". -/
def SelSkipInv (docs : List DocumentState) : Prop :=
  ∀ d ∈ docs, d.selected = false → d.status = DOC_STATUS_SKIPPED

-- ---------------------------------------------------------------------------
-- backend/config.py : LLM runtime parameters
-- ---------------------------------------------------------------------------

def MAX_CHARS_PER_CHUNK : ℕ := 1800
def N_CTX : ℕ := 2048
def MAX_NEW_TOKENS : ℕ := 180
def AGGREGATE_GROUP_SIZE : ℕ := 4
def AGGREGATE_MAX_PARTIALS : ℕ := 6

-- ---------------------------------------------------------------------------
-- backend/summarizer.py : _chunk
-- ---------------------------------------------------------------------------

/-- `piece.rfind("\n")`: index of the last newline, `none` when absent
(Python returns `-1`, which never exceeds the nonnegative threshold). -/
def rfindNewline (s : Str) : Option ℕ :=
  match s.reverse.findIdx? (· = '\n') with
  | some k => some (s.length - 1 - k)
  | none => none

/-- One window of `_chunk`: `t[i : i+max_chars]`, cut back to the last newline
when that newline sits past 60% of the window.  Python computes the threshold
as `int(max_chars * 0.6)` with float arithmetic; it is modeled as
`max_chars * 6 / 10`, which agrees at the configured 1800, and the theorems
below use only its nonnegativity. -/
def _chunk_piece (max_chars : ℕ) (t : Str) : Str :=
  let piece := t.take max_chars
  match rfindNewline piece with
  | some j => if max_chars * 6 / 10 < j then piece.take j else piece
  | none => piece

/-- The `while i < n` loop of `_chunk`; fueled — for `max_chars ≥ 1` each
window consumes at least one character, so `fuel = t.length` always suffices
(for `max_chars = 0` Python would loop forever; the fuel then runs out). -/
def _chunk_loop (max_chars : ℕ) : ℕ → Str → List Str
  | 0, _ => []
  | _ + 1, [] => []
  | fuel + 1, x :: rest =>
    let piece := _chunk_piece max_chars (x :: rest)
    if piece.length = 0 then []
    else pyStrip piece :: _chunk_loop max_chars fuel ((x :: rest).drop piece.length)

/-- `_chunk(text, max_chars)`: strip, then fill windows. -/
def _chunk (text : Str) (max_chars : ℕ) : List Str :=
  _chunk_loop max_chars (pyStrip text).length (pyStrip text)

-- ---------------------------------------------------------------------------
-- backend/classifiers.py
-- ---------------------------------------------------------------------------

/-- Accent folding done by `_normalize`'s NFKD + drop-combining step,
restricted to the characters that can occur in the rule table and in Dutch
legal filenames: accented Latin letters decompose to their base letter,
standalone combining marks (U+0300–U+036F) vanish, everything else — in
particular all of ASCII — is untouched. -/
def foldAccent (c : Char) : Str :=
  if c ∈ ['á', 'à', 'â', 'ä', 'ã', 'Á', 'À', 'Â', 'Ä', 'Ã'] then ['a']
  else if c ∈ ['é', 'è', 'ê', 'ë', 'É', 'È', 'Ê', 'Ë'] then ['e']
  else if c ∈ ['í', 'ì', 'î', 'ï', 'Í', 'Ì', 'Î', 'Ï'] then ['i']
  else if c ∈ ['ó', 'ò', 'ô', 'ö', 'õ', 'Ó', 'Ò', 'Ô', 'Ö', 'Õ'] then ['o']
  else if c ∈ ['ú', 'ù', 'û', 'ü', 'Ú', 'Ù', 'Û', 'Ü'] then ['u']
  else if c ∈ ['ç', 'Ç'] then ['c']
  else if c ∈ ['ñ', 'Ñ'] then ['n']
  else if 0x300 ≤ c.toNat ∧ c.toNat ≤ 0x36F then []
  else [c]

/-- `_normalize`: lowercase, then strip accents.  (Python lowercases before
decomposing; `foldAccent` already sends uppercase accented letters to their
lowercase base, so ASCII `toLower` plus `foldAccent` agrees with it on the
character set above.) -/
def _normalize (s : Str) : Str :=
  (pyLower s).flatMap foldAccent

/-- The separator class `[_\-.]` of `_prep_for_search`. -/
def isSepChar (c : Char) : Bool := c = '_' || c = '-' || c = '.'

/-- `re.sub(cls+, " ", s)` for a single-character class: each maximal run of
matching characters becomes one replacement character.  Structured with fuel
(the step consumes at least one character, so `fuel = s.length` always
suffices and the fuel-exhausted branch is unreachable from the caller). -/
def collapseRuns (p : Char → Bool) (rep : Char) : ℕ → Str → Str
  | 0, s => s
  | _ + 1, [] => []
  | fuel + 1, c :: rest =>
    if p c then rep :: collapseRuns p rep fuel (rest.dropWhile p)
    else c :: collapseRuns p rep fuel rest

/-- `_prep_for_search`: normalize, unify separators, collapse whitespace,
strip. -/
def _prep_for_search (s : Str) : Str :=
  let n := _normalize s
  let u := collapseRuns isSepChar ' ' n.length n
  pyStrip (collapseRuns isPyWs ' ' u.length u)

/-- The `[a-z0-9]` word-character class used by `_token_match`'s lookarounds. -/
def isWordAl (c : Char) : Bool :=
  (97 ≤ c.toNat && c.toNat ≤ 122) || (48 ≤ c.toNat && c.toNat ≤ 57)

/-- One candidate position for `_token_match`: the token occurs at `i` with
no `[a-z0-9]` character directly before or after it. -/
def tokenMatchAt (hay tok : Str) (i : ℕ) : Bool :=
  tok.isPrefixOf (hay.drop i) &&
  (decide (i = 0) || !isWordAl (hay.getD (i - 1) ' ')) &&
  !isWordAl (hay.getD (i + tok.length) ' ')

/-- `_token_match`: standalone-token search. -/
def _token_match (hay tok : Str) : Bool :=
  (List.range (hay.length + 1)).any (tokenMatchAt hay tok)

/-- Python `needle in haystack` (substring containment). -/
def containsSub (hay nd : Str) : Bool :=
  (List.range (hay.length + 1)).any (fun i => nd.isPrefixOf (hay.drop i))

/-- Keyword rules of one document type. -/
structure Rule where
  phrases : List Str
  tokens : List Str

/-- `_dedupe_keep_order`'s worker, carrying the `seen` set. -/
def dedupeAux (seen : List Str) : List Str → List Str
  | [] => []
  | it :: rest =>
    let s := pyStrip it
    if s = [] then dedupeAux seen rest
    else if seen.contains s then dedupeAux seen rest
    else s :: dedupeAux (s :: seen) rest

def _dedupe_keep_order (items : List Str) : List Str :=
  dedupeAux [] items

/-- `_default_rules` (backend/classifiers.py). -/
def _default_rules : List (String × Rule) := [
  ("TLL",
   { phrases := ["vordering tot inbewaringstelling", "vordering inbewaringstelling",
                 "inbewaringstelling", "in bewaringstelling", "vordering ibs",
                 "vord ibs", "vordibs"].map String.toList
     tokens := ["tll", "ibs"].map String.toList }),
  ("UJD",
   { phrases := ["uittreksel justitiele documentatie", "justitiele documentatie",
                 "uittreksel"].map String.toList
     tokens := ["ujd"].map String.toList }),
  ("RECLASS",
   { phrases := ["reclasseringsrapport", "reclasseringsadvies",
                 "adviesrapportage toezicht", "voortgangsrapportage", "vroeghulp",
                 "reclassering", "adviesrapportage", "reclasserings"].map String.toList
     tokens := ["recl", "reclass"].map String.toList }),
  ("VC",
   { phrases := ["voorgeleidingsconsult", "voor geleidingsconsult",
                 "voor geleidings consult", "voorgeleiding rc", "voor geleiding rc",
                 "voor geleiding rechter commissaris",
                 "voor geleiding rechter-commissaris",
                 "voorgeleiding rechter commissaris",
                 "voorgeleiding rechter-commissaris", "verhoor raadkamer",
                 "stukken rc", "pro justitia consult", "projustitia consult",
                 "projustitiaconsult", "nifp consult", "nifpconsult",
                 "trajectconsult", "traject consult", "voorgeleiding",
                 "voor geleiding"].map String.toList
     tokens := ["vc", "vgc"].map String.toList }),
  ("PV",
   { phrases := ["proces verbaal", "proces-verbaal", "procesverbaal", "pv vgl",
                 "pvvgl", "nazending", "verhoor"].map String.toList
     tokens := ["pv"].map String.toList }),
  ("PJ",
   { phrases := ["oude pj", "oud pj", "rapport pro justitia", "pro justitia",
                 "projustitia", "nifp"].map String.toList
     tokens := ["pj"].map String.toList })]

/-- `sorted(set(PROMPT_FILES keys) - {"UNKNOWN"})` from
`_get_allowed_types_from_config` (backend/config.py's `PROMPT_FILES`). -/
def allowed_types : List String := ["PJ", "PV", "RECLASS", "TLL", "UJD", "VC"]

/-- Rule lookup with the empty rule as default. -/
def rules_get (rs : List (String × Rule)) (t : String) : Rule :=
  match rs.find? (fun kv => kv.1 = t) with
  | some kv => kv.2
  | none => { phrases := [], tokens := [] }

/-- `_merge_rules(_default_rules(), extra, allowed_types)` with `extra = {}`:
the optional `backend/nomenclature_rules.json` is absent from the repository,
so `_load_external_rules_json` returns the empty mapping and the merge just
dedupes the defaults.  Python iterates the `allowed` set in unspecified
order; the embedding fixes `allowed_types` order — the classification result
is order-independent (see the `_best_match` argmax theorems). -/
def rules : List (String × Rule) :=
  allowed_types.map (fun t =>
    (t, { phrases := _dedupe_keep_order (rules_get _default_rules t).phrases
          tokens := _dedupe_keep_order (rules_get _default_rules t).tokens }))

/-- The tie-break priority list of `classify_document`. -/
def priority : List String :=
  ["VC", "PJ", "PV", "RECLASS", "UJD", "TLL"]
  ++ allowed_types.filter
      (fun t => !(["VC", "PJ", "PV", "RECLASS", "UJD", "TLL"].contains t))

/-- `priority_index.get(t, 10**9)`. -/
def priority_index (pri : List String) (t : String) : ℕ :=
  match pri.findIdx? (· = t) with
  | some i => i
  | none => 10 ^ 9

/-- `_best_match`'s running best `(score, type, keyword)`. -/
structure BestAcc where
  score : ℕ
  dtype : String
  kw : Str
deriving DecidableEq

/-- The update rule of `_best_match`: replace the running best when the new
candidate scores strictly higher, or ties and has strictly better priority. -/
def better (pri : List String) (acc : BestAcc) (score : ℕ) (dtype : String)
    (kw : Str) : BestAcc :=
  if acc.score < score ∨
      (score = acc.score ∧ priority_index pri dtype < priority_index pri acc.dtype)
  then ⟨score, dtype, kw⟩ else acc

/-- The phrase loop of `_best_match` for one type. -/
def scanPhrases (pri : List String) (hay : Str) (dt : String) (ps : List Str)
    (acc : BestAcc) : BestAcc :=
  ps.foldl (fun acc p =>
    let p2 := _prep_for_search p
    if p2 ≠ [] ∧ containsSub hay p2 = true then
      better pri acc (100 + p2.length) dt p
    else acc) acc

/-- The token loop of `_best_match` for one type. -/
def scanTokens (pri : List String) (hay : Str) (dt : String) (ts : List Str)
    (acc : BestAcc) : BestAcc :=
  ts.foldl (fun acc t =>
    let t2 := _prep_for_search t
    if t2 ≠ [] ∧ _token_match hay t2 = true then
      better pri acc (10 + t2.length) dt t
    else acc) acc

/-- `_best_match(haystack, rules, priority)`. -/
def _best_match (hay : Str) (rs : List (String × Rule)) (pri : List String) :
    BestAcc :=
  rs.foldl (fun acc tr => scanTokens pri hay tr.1 tr.2.tokens
                            (scanPhrases pri hay tr.1 tr.2.phrases acc))
    ⟨0, "", []⟩

/-- ASCII `str.upper()`. -/
def pyUpper (s : Str) : Str := s.map Char.toUpper

/-- Python `str.split()` (split on whitespace runs, no empty parts); fueled —
each step consumes at least one character, so `fuel = s.length` suffices. -/
def splitWs : ℕ → Str → List Str
  | 0, _ => []
  | _ + 1, [] => []
  | fuel + 1, c :: rest =>
    if isPyWs c then splitWs fuel rest
    else (c :: rest.takeWhile (fun x => !isPyWs x)) ::
      splitWs fuel (rest.dropWhile (fun x => !isPyWs x))

/-- `_detect_type_from_filename_prefix` (the Lean name carries a `_code`
suffix): first normalized token of the filename stem, if it is an allowed
type code. -/
def _detect_type_from_filename_prefix_code (filename : Str)
    (allowed : List String) : Option String :=
  let prepared := _prep_for_search (pathStemChars filename)
  match splitWs prepared.length prepared with
  | [] => none
  | first :: _ =>
    let f : String := ⟨pyUpper first⟩
    if allowed.contains f then some f else none

/-- `classify_document(path, text)`: filename-prefix shortcut, then keyword
rules on the filename, then keyword rules on the first 8000 characters of the
content, else `"UNKNOWN"`. -/
def classify_document (path : Str) (text : Str) : String :=
  match _detect_type_from_filename_prefix_code (pathNameChars path) allowed_types with
  | some t => t
  | none =>
    let name_search := _prep_for_search (pathNameChars path)
    let content_search := _prep_for_search (text.take 8000)
    let b1 := _best_match name_search rules priority
    if 0 < b1.score ∧ b1.dtype ≠ "" then b1.dtype
    else
      let b2 := _best_match content_search rules priority
      if 0 < b2.score ∧ b2.dtype ≠ "" then b2.dtype
      else "UNKNOWN"

/-- One scored match candidate of `_best_match`: (score, type, keyword). -/
abbrev Cand := ℕ × String × Str

/-- Folding `_best_match`'s replacement rule over a list of candidates. -/
def foldBetter (pri : List String) (acc : BestAcc) (l : List Cand) : BestAcc :=
  l.foldl (fun a c => better pri a c.1 c.2.1 c.2.2) acc

/-- The matching phrases of one type against a haystack, with the
specification's scoring: a phrase match scores `100 + length(phrase)` (length
of the prepared phrase, as the code computes it). -/
def phraseCands (hay : Str) (dt : String) (ps : List Str) : List Cand :=
  ps.filterMap (fun p =>
    if _prep_for_search p ≠ [] ∧ containsSub hay (_prep_for_search p) = true then
      some (100 + (_prep_for_search p).length, dt, p)
    else none)

/-- The matching tokens of one type against a haystack, with the
specification's scoring: a token match scores `10 + length(token)`. -/
def tokenCands (hay : Str) (dt : String) (ts : List Str) : List Cand :=
  ts.filterMap (fun t =>
    if _prep_for_search t ≠ [] ∧ _token_match hay (_prep_for_search t) = true then
      some (10 + (_prep_for_search t).length, dt, t)
    else none)

/-- Every candidate `_best_match` considers, in consideration order. -/
def allCands (hay : Str) (rs : List (String × Rule)) : List Cand :=
  rs.flatMap (fun tr =>
    phraseCands hay tr.1 tr.2.phrases ++ tokenCands hay tr.1 tr.2.tokens)

/-- Best score among a candidate list (0 when nothing matches). -/
def maxScore (l : List Cand) : ℕ := l.foldr (fun c m => max c.1 m) 0

/-- The merged rule of one type (defaults deduped; the optional external
rules file is absent from the repository). -/
def mkRule (t : String) : Rule :=
  { phrases := _dedupe_keep_order (rules_get _default_rules t).phrases
    tokens := _dedupe_keep_order (rules_get _default_rules t).tokens }

/-- All candidates of one type. -/
def typeCands (hay : Str) (t : String) : List Cand :=
  phraseCands hay t (mkRule t).phrases ++ tokenCands hay t (mkRule t).tokens

/-- Specification-level score of a type against a haystack: the best of its
phrase scores (`100 + length`) and token scores (`10 + length`); 0 when
nothing matches. -/
def typeScore (hay : Str) (t : String) : ℕ := maxScore (typeCands hay t)

/-- Specification-level winning type: an allowed type with positive score,
maximal among the allowed types, of least priority index among the ties. -/
def IsBestType (hay : Str) (t : String) : Prop :=
  t ∈ allowed_types ∧ 0 < typeScore hay t ∧
  (∀ u ∈ allowed_types, typeScore hay u ≤ typeScore hay t) ∧
  (∀ u ∈ allowed_types, typeScore hay u = typeScore hay t →
    priority_index priority t ≤ priority_index priority u)

instance (hay : Str) (t : String) : Decidable (IsBestType hay t) := by
  unfold IsBestType
  infer_instance

/-- Some allowed type matches the haystack with positive score. -/
def hasBestCandidate (hay : Str) : Prop := ∃ u ∈ allowed_types, 0 < typeScore hay u

instance (hay : Str) : Decidable (hasBestCandidate hay) := by
  unfold hasBestCandidate
  infer_instance

/-- No allowed type matches the haystack. -/
def noCandidates (hay : Str) : Prop := ∀ u ∈ allowed_types, typeScore hay u = 0

instance (hay : Str) : Decidable (noCandidates hay) := by
  unfold noCandidates
  infer_instance

-- ---------------------------------------------------------------------------
-- backend/summarizer.py : sanitization
-- ---------------------------------------------------------------------------

/-- ASCII digits. -/
def isDigit (c : Char) : Bool := 48 ≤ c.toNat && c.toNat ≤ 57

/-- Word characters `[a-zA-Z0-9_]` for `\b` boundaries. -/
def isWordChar (c : Char) : Bool :=
  (97 ≤ c.toNat && c.toNat ≤ 122) || (65 ≤ c.toNat && c.toNat ≤ 90) ||
  (48 ≤ c.toNat && c.toNat ≤ 57) || c = '_'

/-- `s.replace("\r\n", "\n")`. -/
def sanCRLF : Str → Str
  | [] => []
  | '\r' :: '\n' :: rest => '\n' :: sanCRLF rest
  | c :: rest => c :: sanCRLF rest

/-- `re.sub(r"\n{3,}", "\n\n", s)`: runs of three or more newlines become
exactly two; fueled — each step consumes at least one character. -/
def sanCollapseNl : ℕ → Str → Str
  | 0, s => s
  | _ + 1, [] => []
  | fuel + 1, c :: rest =>
    if c = '\n' then
      let run := rest.takeWhile (· = '\n')
      (if 2 ≤ run.length then ['\n', '\n'] else '\n' :: run)
        ++ sanCollapseNl fuel (rest.drop run.length)
    else c :: sanCollapseNl fuel rest

/-- Case-insensitive literal match: consume `lit` from the front of `s`. -/
def matchCI (lit s : Str) : Option Str :=
  if pyLower (s.take lit.length) = lit then some (s.drop lit.length) else none

/-- Matcher for `(?i)Pagina\s+\d+\s+van\s+\d+\s*` at the start of `s`;
returns the remainder after the (greedy) match. -/
def matchPagina (s : Str) : Option Str :=
  match matchCI "pagina".toList s with
  | none => none
  | some s1 =>
    let w1 := s1.takeWhile isPyWs
    if w1 = [] then none else
    let s2 := s1.drop w1.length
    let d1 := s2.takeWhile isDigit
    if d1 = [] then none else
    let s3 := s2.drop d1.length
    let w2 := s3.takeWhile isPyWs
    if w2 = [] then none else
    match matchCI "van".toList (s3.drop w2.length) with
    | none => none
    | some s4 =>
      let w3 := s4.takeWhile isPyWs
      if w3 = [] then none else
      let s5 := s4.drop w3.length
      let d2 := s5.takeWhile isDigit
      if d2 = [] then none else
      let s6 := s5.drop d2.length
      some (s6.drop (s6.takeWhile isPyWs).length)

/-- `re.sub` scan for the `Pagina … van …` pattern (every match removed; a
match always consumes at least the literal `pagina`, so `fuel = s.length`
suffices). -/
def sanPagina : ℕ → Str → Str
  | 0, s => s
  | _ + 1, [] => []
  | fuel + 1, c :: rest =>
    match matchPagina (c :: rest) with
    | some nxt => sanPagina fuel nxt
    | none => c :: sanPagina fuel rest

/-- One line starts (after optional intra-line whitespace) with
`Retouradres`, case-insensitively. -/
def lineIsRetouradres (line : Str) : Bool :=
  pyLower ((line.dropWhile isPyWs).take 11) = "retouradres".toList

/-- `re.sub(r"(?im)^\s*Retouradres.*$", "", s)`: such lines are emptied (their
newline terminators remain).  The `\s*` of the pattern is modeled within the
line; Python would let it also swallow a preceding run of blank lines. -/
def sanRetouradres (s : Str) : Str :=
  List.intercalate ['\n']
    ((s.splitOn '\n').map (fun line => if lineIsRetouradres line then [] else line))

/-- `s.replace("**", "")`. -/
def sanStars : Str → Str
  | [] => []
  | '*' :: '*' :: rest => sanStars rest
  | c :: rest => c :: sanStars rest

/-- `_sanitize`. -/
def _sanitize (s : Str) : Str :=
  let a := sanCRLF s
  let b := sanCollapseNl a.length a
  pyStrip (sanStars (sanRetouradres (sanPagina b.length b)))

-- ---------------------------------------------------------------------------
-- backend/summarizer.py : prompt building and fitting
-- ---------------------------------------------------------------------------

/-- `_count_tokens_rough`: `max(1, int(len(s) / 3.6))`, modeled with exact
arithmetic as `len * 10 / 36` (Python divides in floating point; none of the
theorems below depend on the boundary lengths where the two could differ). -/
def _count_tokens_rough (s : Str) : ℕ :=
  max 1 (s.length * 10 / 36)

/-- `_chatml(system_msg, user_msg)`. -/
def _chatml (system_msg user_msg : Str) : Str :=
  "<|system|>\n".toList ++ system_msg ++ "\n<|user|>\n".toList ++ user_msg
    ++ "\n<|assistant|>\n".toList

/-- `_wrap_user(template, body, max_sents)`. -/
def _wrap_user (template body : Str) (max_sents : ℕ) : Str :=
  pyStrip template ++ "\n[TEKST]\n".toList ++ pyStrip body ++ "\n</TEKST>\n".toList
    ++ "Geef maximaal ".toList ++ (toString max_sents).toList ++ " zinnen.".toList

/-- The shrink loop of `_fit_prompt_to_ctx`: while the rough token count
exceeds the limit and the body is at least 200 characters, cut the body to
85% (`int(len(ch) * 0.85)`, modeled as `len * 85 / 100`).  Fueled — every
loop iteration strictly shrinks the body, so `fuel = ch.length + 1`
suffices. -/
def fitLoop (system_msg template : Str) (limit : ℕ) : ℕ → Str → Str
  | 0, ch => _chatml system_msg (_wrap_user template ch 4)
  | fuel + 1, ch =>
    let prompt := _chatml system_msg (_wrap_user template ch 4)
    if _count_tokens_rough prompt ≤ limit ∨ ch.length < 200 then prompt
    else fitLoop system_msg template limit fuel (ch.take (ch.length * 85 / 100))

/-- `_fit_prompt_to_ctx(system_msg, template, body, target_ctx)`; the limit
`int(target_ctx * 0.90)` is modeled as `target_ctx * 90 / 100`. -/
def _fit_prompt_to_ctx (system_msg template body : Str) (target_ctx : ℕ) : Str :=
  fitLoop system_msg template (max 256 (target_ctx * 90 / 100))
    ((pyStrip body).length + 1) (pyStrip body)

-- ---------------------------------------------------------------------------
-- backend/summarizer.py : generation, echo cleaning
-- ---------------------------------------------------------------------------

/-- The external generation capability (`get_llm()` + `llm(...)` with the
fixed decoding parameters): `(prompt, max_new_tokens) ↦` generated text, or
the message of a raised exception. -/
abbrev GenOracle := Str → ℕ → Except String Str

/-- `_generate(prompt, max_new=...)`: `int(max_new or MAX_NEW_TOKENS)` (also
for a falsy `0`). -/
def _generate (gen : GenOracle) (prompt : Str) (max_new : Option ℕ) :
    Except String Str :=
  gen prompt (match max_new with
              | none => MAX_NEW_TOKENS
              | some m => if m = 0 then MAX_NEW_TOKENS else m)

/-- The separator class `[\s,;:.!?]` of `_clean_echo`'s second pattern. -/
def isSepPunct (c : Char) : Bool :=
  isPyWs c || c = ',' || c = ';' || c = ':' || c = '.' || c = '!' || c = '?'

/-- `\bje bent\b` at the front of `s` given the previous character. -/
def tryJeBent (s : Str) (prev : Option Char) : Option Str :=
  if (match prev with | some c => !isWordChar c | none => true) &&
      decide (pyLower (s.take 7) = "je bent".toList) &&
      !isWordChar (s.getD 7 ' ') then
    some (s.drop 7)
  else none

/-- Count of consecutive `(\bje bent\b[\s,;:.!?]*)` repetitions from the
front, with the remainder after the run. -/
def jeBentRun : ℕ → Str → Option Char → ℕ × Str
  | 0, s, _ => (0, s)
  | fuel + 1, s, prev =>
    match tryJeBent s prev with
    | none => (0, s)
    | some rest =>
      let seps := rest.takeWhile isSepPunct
      let rest2 := rest.drop seps.length
      let prev2 := if seps = [] then some 't' else seps.getLast?
      let r := jeBentRun fuel rest2 prev2
      (r.1 + 1, r.2)

/-- Scanner for `re.sub(r"(?i)(\bje bent\b[\s,;:.!?]*){2,}", "Je bent ", t)`. -/
def cleanEchoScan : ℕ → Str → Option Char → Str
  | 0, s, _ => s
  | _ + 1, [], _ => []
  | fuel + 1, c :: rest, prev =>
    let r := jeBentRun (c :: rest).length (c :: rest) prev
    if 2 ≤ r.1 then "Je bent ".toList ++ cleanEchoScan fuel r.2 (some ' ')
    else c :: cleanEchoScan fuel rest (some c)

/-- First pattern of `_clean_echo`: `re.sub(r"(?i)^\s*je bent.*?\n", "", t)` —
anchored at the string start, removed up to and including the first newline. -/
def cleanEchoHead (t : Str) : Str :=
  let ws := t.takeWhile isPyWs
  let rest := t.drop ws.length
  if pyLower (rest.take 7) = "je bent".toList then
    match rest.findIdx? (· = '\n') with
    | some k => rest.drop (k + 1)
    | none => t
  else t

/-- `_clean_echo`. -/
def _clean_echo (txt : Str) : Str :=
  let t := pyStrip txt
  let t := cleanEchoHead t
  let t := cleanEchoScan t.length t none
  pyStrip t

-- ---------------------------------------------------------------------------
-- backend/summarizer.py : map / reduce
-- ---------------------------------------------------------------------------

/-- `range(0, len(l), k)` slicing into groups of `k` (the caller always uses
`AGGREGATE_GROUP_SIZE = 4`; `k = 0` would raise in Python).  Fueled — each
group consumes at least one element, so `fuel = l.length` suffices. -/
def groupsOf (k : ℕ) : ℕ → List α → List (List α)
  | 0, _ => []
  | _ + 1, [] => []
  | fuel + 1, x :: rest =>
    if k = 0 then []
    else (x :: rest).take k :: groupsOf k fuel ((x :: rest).drop k)

/-- Sequential effectful map (first exception wins), as the `for` loop over
groups does it. -/
def mapExcept (f : α → Except ε β) : List α → Except ε (List β)
  | [] => .ok []
  | x :: rest =>
    match f x with
    | .error e => .error e
    | .ok y =>
      match mapExcept f rest with
      | .error e => .error e
      | .ok ys => .ok (y :: ys)

/-- `_reduce_group(summaries, system_msg, target_ctx)`. -/
def _reduce_group (gen : GenOracle) (summaries : List Str) (system_msg : Str)
    (target_ctx : ℕ) : Except String Str :=
  let user := "Vat de volgende deelsamenvattingen samen tot één tekst van max. 4 zinnen.\n\n".toList
    ++ List.intercalate "\n\n".toList
        (summaries.enum.map (fun it =>
          "— ".toList ++ (toString (it.1 + 1)).toList ++ ". ".toList ++ it.2))
  let prompt := _chatml system_msg user
  let prompt :=
    if target_ctx * 90 / 100 < _count_tokens_rough prompt then
      _chatml system_msg ("Vat kort samen (max. 3 zinnen):\n\n".toList
        ++ List.intercalate "\n\n".toList
            (summaries.take (max 1 (summaries.length / 2))))
    else prompt
  match _generate gen prompt none with
  | .ok out => .ok (pyStrip out)
  | .error e => .error e

/-- The `while len(partials) > 1` reduce loop, instrumented with a round
counter.  Each pass maps `_reduce_group` over groups of
`AGGREGATE_GROUP_SIZE`.  A pass shrinks a list of length ≥ 2 strictly, so
`fuel = partials.length` always suffices (the fuel-exhausted branch is
unreachable from `summarize_document`). -/
def reduceLoopF (gen : GenOracle) (system_msg : Str) (ctx : ℕ) :
    ℕ → List Str → ℕ → Except String (List Str × ℕ)
  | 0, ps, rounds => .ok (ps, rounds)
  | fuel + 1, ps, rounds =>
    if ps.length ≤ 1 then .ok (ps, rounds)
    else
      match mapExcept (fun g => _reduce_group gen g system_msg ctx)
          (groupsOf AGGREGATE_GROUP_SIZE ps.length ps) with
      | .ok grouped => reduceLoopF gen system_msg ctx fuel grouped (rounds + 1)
      | .error e => .error e

/-- The MAP loop of `summarize_document`, with the module-global
`_effective_ctx` threaded through: per chunk, fit a prompt to the current
budget and generate; on a context-overflow message, drop the global budget to
the fallback tier named in the message (512 / 1024 / else 768), refit, and
retry once with a reduced output cap.  A raised exception carries the global's
value at raise time. -/
def mapChunks (gen : GenOracle) (template system_msg : Str) :
    List Str → ℕ → Except (String × ℕ) (List Str × ℕ)
  | [], ctx => .ok ([], ctx)
  | ch :: rest, ctx =>
    let prompt := _fit_prompt_to_ctx system_msg template ch ctx
    match _generate gen prompt none with
    | .ok out =>
      match mapChunks gen template system_msg rest ctx with
      | .ok (ps, ctx') => .ok (_clean_echo (pyStrip out) :: ps, ctx')
      | .error e => .error e
    | .error msg =>
      if containsSub msg.toList "maximum context length".toList ||
          containsSub msg.toList "exceeded maximum context length".toList then
        let newCtx : ℕ :=
          if containsSub msg.toList "512".toList then 512
          else if containsSub msg.toList "1024".toList then 1024
          else 768
        let prompt2 := _fit_prompt_to_ctx system_msg template ch newCtx
        match _generate gen prompt2 (some (min 140 MAX_NEW_TOKENS)) with
        | .ok out2 =>
          match mapChunks gen template system_msg rest newCtx with
          | .ok (ps, ctx') => .ok (_clean_echo (pyStrip out2) :: ps, ctx')
          | .error e => .error e
        | .error e2 => .error (e2, newCtx)
      else .error (msg, ctx)

/-- `str.upper()` on the `String` wrapper. -/
def strUpper (s : String) : String := ⟨pyUpper s.toList⟩

/-- `re.search(r"(?i)\bOverwegende\b", text)`: position of the first
word-bounded, case-insensitive occurrence. -/
def findOverwegende (s : Str) : Option ℕ :=
  (List.range s.length).find? (fun i =>
    decide (pyLower ((s.drop i).take 11) = "overwegende".toList) &&
    (decide (i = 0) || !isWordChar (s.getD (i - 1) ' ')) &&
    !isWordChar (s.getD (i + 11) ' '))

/-- The text `summarize_document` actually chunks: sanitized input, with the
TLL-specific cut at the first word-bounded `Overwegende`. -/
def _summarize_input_text (doc_type : String) (doc_text : Str) : Str :=
  let text := _sanitize doc_text
  if strUpper doc_type = "TLL" then
    match findOverwegende text with
    | some i => pyStrip (text.take i)
    | none => text
  else text

/-- The fixed system role of `summarize_document`. -/
def summarize_system_msg : Str :=
  "Schrijf een korte, professionele samenvatting in het Nederlands.".toList

/-- `summarize_document(doc_type, doc_text)`.  The prompt template read from
`PROMPT_FILES` is an external resource and is passed in as `template`; the
module-global `_effective_ctx` is threaded explicitly (its value at call time
comes in as `effective_ctx`, its value afterwards — also when an exception
propagates — is returned). -/
def summarize_document (gen : GenOracle) (template : Str) (doc_type : String)
    (doc_text : Str) (effective_ctx : ℕ) : Except (String × ℕ) (Str × ℕ) :=
  let chunks := _chunk (_summarize_input_text doc_type doc_text) MAX_CHARS_PER_CHUNK
  if chunks = [] then .ok ("Geen tekst aangetroffen.".toList, effective_ctx)
  else
    let system_msg := summarize_system_msg
    match mapChunks gen template system_msg chunks effective_ctx with
    | .error e => .error e
    | .ok (partials, ctx') =>
      let partials :=
        if AGGREGATE_MAX_PARTIALS < partials.length then
          partials.take AGGREGATE_MAX_PARTIALS
        else partials
      match reduceLoopF gen system_msg ctx' partials.length partials 0 with
      | .ok (final, _rounds) =>
        .ok ((match final with | f :: _ => f | [] => []), ctx')
      | .error e => .error (e, ctx')

-- ===========================================================================
-- Well-formedness: path fields hold canonical path strings (never `""`)
-- ===========================================================================

/-- Path slots parsed through `_to_path` must not hold the empty string —
no Python `Path` has an empty string form. -/
def SummaryState.wfPaths (s : SummaryState) : Prop :=
  s.txt_path ≠ some "" ∧ s.json_path ≠ some ""

instance (s : SummaryState) : Decidable s.wfPaths := by
  unfold SummaryState.wfPaths; infer_instance

def DocumentState.wfPaths (d : DocumentState) : Prop :=
  d.summary.wfPaths

instance (d : DocumentState) : Decidable d.wfPaths := by
  unfold DocumentState.wfPaths; infer_instance

def CaseState.wfPaths (c : CaseState) : Prop :=
  c.case_dir ≠ some "" ∧ c.source_zip_path ≠ some "" ∧ c.extracted_dir ≠ some "" ∧
  c.summaries_dir ≠ some "" ∧ c.final_dir ≠ some "" ∧ c.selected_zip_path ≠ some "" ∧
  c.final_report_path ≠ some ""

instance (c : CaseState) : Decidable c.wfPaths := by
  unfold CaseState.wfPaths; infer_instance

def AppState.wfPaths (st : AppState) : Prop :=
  st.model.path ≠ some "" ∧ st.case.wfPaths ∧ ∀ d ∈ st.documents, d.wfPaths

instance (st : AppState) : Decidable st.wfPaths := by
  unfold AppState.wfPaths; infer_instance

-- ===========================================================================
-- Shared helper lemmas on filesystem traces
-- ===========================================================================

/-- `ensure_case_dirs` only creates directories. -/
theorem ensure_ops_are_mkdirp (st : AppState) :
    ∀ op ∈ st.ensure_case_dirs_ops, ∃ p, op = FsOp.mkdirp p := by
  intro op hop
  unfold AppState.ensure_case_dirs_ops at hop
  obtain ⟨p, _, hp⟩ := List.mem_map.mp hop
  exact ⟨p, hp.symm⟩

/-- Directory creation does not change any file. -/
theorem runFsOps_mkdirp (l : List FsOp) (fs : PPath → FileData)
    (h : ∀ op ∈ l, ∃ p, op = FsOp.mkdirp p) : runFsOps l fs = fs := by
  induction l generalizing fs with
  | nil => rfl
  | cons op rest ih =>
    obtain ⟨p, hp⟩ := h op (by simp)
    subst hp
    have : applyFsOp fs (FsOp.mkdirp p) = fs := rfl
    simpa [runFsOps, List.foldl_cons, this] using
      ih fs (fun o ho => h o (by simp [ho]))

theorem runFsOps_append (l1 l2 : List FsOp) (fs : PPath → FileData) :
    runFsOps (l1 ++ l2) fs = runFsOps l2 (runFsOps l1 fs) := by
  simp [runFsOps, List.foldl_append]

/-- Crashing after a run of directory creations is crashing in the rest. -/
theorem runFsOpsCrashAt_skip (l1 ops : List FsOp) (k : ℕ) (fs : PPath → FileData)
    (h : ∀ op ∈ l1, ∃ p, op = FsOp.mkdirp p) :
    runFsOpsCrashAt (l1 ++ ops) (l1.length + k) fs = runFsOpsCrashAt ops k fs := by
  induction l1 generalizing fs with
  | nil => simp
  | cons op rest ih =>
    obtain ⟨p, hp⟩ := h op (by simp)
    subst hp
    have harith : (FsOp.mkdirp p :: rest).length + k = rest.length + k + 1 := by
      simp only [List.length_cons]; omega
    rw [List.cons_append, harith]
    show runFsOpsCrashAt (rest ++ ops) (rest.length + k) (applyFsOp fs (FsOp.mkdirp p)) = _
    exact ih fs (fun o ho => h o (by simp [ho]))

-- ===========================================================================
-- C1 : atomicity of save_manifest
-- ===========================================================================

/-- A fully initialized case, used as concrete input by several claims. -/
def cexCase : CaseState :=
  { case_id := "2024-01-01_000000_abcdef"
    case_dir := some "/cases/c1"
    source_zip_path := some "/tmp/in.zip"
    extracted_dir := some "/cases/c1/extracted"
    summaries_dir := some "/cases/c1/summaries"
    final_dir := some "/cases/c1/final"
    selected_zip_path := some "/cases/c1/selected/selected_documents.zip"
    final_report_path := some "/cases/c1/final/final_report.pdf"
    archive_created_at := none }

def c1_state : AppState := { case := cexCase, updated_at := "2024-01-01T00:00:00" }

/-- The trace `save_manifest` issues on `c1_state`. -/
def c1_ops : List FsOp :=
  c1_state.ensure_case_dirs_ops
    ++ [FsOp.write "/cases/c1/manifest.json" ((c1_state.touch "2024-01-02T00:00:00").to_dict)]

/-- C1, counterexample: on a fully initialized case, `save_manifest` writes
`manifest.json` with a single direct in-place write — the trace is not of
write-temp-then-replace shape, contradicting the claim for this call. -/
theorem c1_counterexample :
    AppState.save_manifest c1_state "2024-01-02T00:00:00"
      = some (c1_state.touch "2024-01-02T00:00:00", c1_ops, "/cases/c1/manifest.json") ∧
    ¬ WritesViaTempThenReplace c1_ops "/cases/c1/manifest.json" := by
  refine ⟨rfl, fun h => ?_⟩
  exact h.1 ((c1_state.touch "2024-01-02T00:00:00").to_dict)
    (by simp [c1_ops])

/-- C1, amended: every `save_manifest` call writes the manifest with a single
direct in-place write of the serialized state (after `touch`): the completed
trace leaves `manifest.json` fully written, but it is not a
write-temp-then-replace trace, and there is a crash point during the trace at
which `manifest.json` exists partially written. -/
theorem c1_amended (st : AppState) (now : String) (st' : AppState)
    (ops : List FsOp) (mp : PPath)
    (h : AppState.save_manifest st now = some (st', ops, mp)) :
    runFsOps ops (fun _ => FileData.absent) mp = FileData.full st'.to_dict ∧
    (∃ k, runFsOpsCrashAt ops k (fun _ => FileData.absent) mp
            = FileData.truncated st'.to_dict) ∧
    ¬ WritesViaTempThenReplace ops mp := by
  unfold AppState.save_manifest at h
  rcases hmp : st.manifest_path with _ | mp0
  · rw [hmp] at h; exact absurd h (by simp)
  · rw [hmp] at h
    simp only [Option.some.injEq, Prod.mk.injEq] at h
    obtain ⟨h1, h2, h3⟩ := h
    subst h1; subst h2; subst h3
    refine ⟨?_, ⟨st.ensure_case_dirs_ops.length, ?_⟩, ?_⟩
    · rw [runFsOps_append,
        runFsOps_mkdirp st.ensure_case_dirs_ops _ (ensure_ops_are_mkdirp st)]
      simp [runFsOps, applyFsOp]
    · rw [show st.ensure_case_dirs_ops.length = st.ensure_case_dirs_ops.length + 0 by rfl,
        runFsOpsCrashAt_skip _ _ _ _ (ensure_ops_are_mkdirp st)]
      simp [runFsOpsCrashAt]
    · intro hA
      exact hA.1 ((st.touch now).to_dict) (by simp)

/-- Witness for `c1_amended` at the concrete case. -/
theorem c1_amended_witness :
    runFsOps c1_ops (fun _ => FileData.absent) "/cases/c1/manifest.json"
      = FileData.full ((c1_state.touch "2024-01-02T00:00:00").to_dict) ∧
    (∃ k, runFsOpsCrashAt c1_ops k (fun _ => FileData.absent) "/cases/c1/manifest.json"
            = FileData.truncated ((c1_state.touch "2024-01-02T00:00:00").to_dict)) ∧
    ¬ WritesViaTempThenReplace c1_ops "/cases/c1/manifest.json" :=
  c1_amended c1_state "2024-01-02T00:00:00" _ c1_ops "/cases/c1/manifest.json" rfl

-- ===========================================================================
-- C3 : the selected=false ⇒ skipped invariant
-- ===========================================================================

def c3_base : AppState := { case := cexCase, updated_at := "2024-01-01T00:00:00" }

/-- C3, counterexample: `add_document` with `selected=False` (an argument the
operation exposes) takes a ledger satisfying the invariant to one violating
it — the new record carries `selected = false` with status `"detected"`. -/
theorem c3_counterexample :
    SelSkipInv c3_base.documents ∧
    ¬ SelSkipInv ((c3_base.add_document "id1" "a.pdf" "/cases/c1/extracted/a.pdf"
        "" none false "2024-01-02T00:00:00").1.documents) := by
  constructor
  · intro d hd; simp [c3_base] at hd
  · intro h
    have hmem :
        ((c3_base.add_document "id1" "a.pdf" "/cases/c1/extracted/a.pdf"
          "" none false "2024-01-02T00:00:00").2)
          ∈ (c3_base.add_document "id1" "a.pdf" "/cases/c1/extracted/a.pdf"
          "" none false "2024-01-02T00:00:00").1.documents := by
      simp [AppState.add_document, c3_base]
    have := h _ hmem (by rfl)
    simp [AppState.add_document, DOC_STATUS_DETECTED, DOC_STATUS_SKIPPED] at this

/-- One normalization pass leaves every unselected document `skipped`. -/
theorem normalizeDoc_selskip (sd : Option PPath) (fs : PPath → Bool)
    (d : DocumentState) (h : (normalizeDoc sd fs d).1.selected = false) :
    (normalizeDoc sd fs d).1.status = DOC_STATUS_SKIPPED := by
  unfold normalizeDoc at h ⊢
  split_ifs at h ⊢ with h1 h2 h3 h4 <;> simp_all <;> tauto

/-- C3, amended: the invariant "selected = false ⇒ status = skipped" is
preserved by `add_document` when the document is added selected (the
default); established outright by `mark_archive_created_and_queue_selected`
and by the resume-normalization step; and preserved by the per-document
status updates provided the updated document is selected.  (`add_document`
with `selected=False` violates it: the new record gets status `detected`.) -/
theorem c3_amended :
    (∀ (st : AppState) i nm sp dt dc now, SelSkipInv st.documents →
        SelSkipInv ((st.add_document i nm sp dt dc true now).1.documents)) ∧
    (∀ (st : AppState) now,
        SelSkipInv ((st.mark_archive_created_and_queue_selected now).documents)) ∧
    (∀ sd fs docs, SelSkipInv (normalizeDocs sd fs docs).1) ∧
    (∀ docs i stat err, SelSkipInv docs →
        (∀ d ∈ docs, d.doc_id = i → d.selected = true) →
        SelSkipInv (set_doc_status docs i stat err)) := by
  refine ⟨?_, ?_, ?_, ?_⟩
  · intro st i nm sp dt dc now hinv d hd hsel
    simp only [AppState.add_document, List.mem_append, List.mem_singleton] at hd
    rcases hd with hd | hd
    · exact hinv d hd hsel
    · subst hd; simp at hsel
  · intro st now d hd hsel
    simp only [AppState.mark_archive_created_and_queue_selected, List.mem_map] at hd
    obtain ⟨d0, _, hmap⟩ := hd
    by_cases hs : d0.selected
    · subst hmap; simp_all
    · subst hmap; simp_all
  · intro sd fs docs d hd hsel
    simp only [normalizeDocs, List.map_map, List.mem_map, Function.comp_apply] at hd
    obtain ⟨d0, _, hmap⟩ := hd
    rw [← hmap] at hsel ⊢
    exact normalizeDoc_selskip sd fs d0 hsel
  · intro docs i stat err hinv h2 d hd hsel
    simp only [set_doc_status, List.mem_map] at hd
    obtain ⟨d0, hd0, hmap⟩ := hd
    by_cases hid : d0.doc_id = i
    · have := h2 d0 hd0 hid
      subst hmap
      simp_all
    · subst hmap
      simp only [hid, if_neg, if_false] at hsel ⊢
      simp_all [hinv d0 hd0]

/-- Witness for `c3_amended`. -/
theorem c3_amended_witness :
    SelSkipInv ((c3_base.add_document "id1" "a.pdf" "/cases/c1/extracted/a.pdf"
      "" none true "2024-01-02T00:00:00").1.documents) :=
  c3_amended.1 c3_base "id1" "a.pdf" "/cases/c1/extracted/a.pdf" "" none
    "2024-01-02T00:00:00" (by intro d hd; simp [c3_base] at hd)

-- ===========================================================================
-- C4 : manifest round-trip
-- ===========================================================================

theorem ModelState.model_roundtrip (m : ModelState) (hw : m.path ≠ some "") :
    ModelState.from_dict (ModelState.to_dict m) = m := by
  cases m with
  | mk name status path last_checked_at error_message =>
    cases path with
    | none =>
      cases last_checked_at <;>
        simp [ModelState.from_dict, ModelState.to_dict, dget, getStr,
          getOptStr, _to_path, _path_str, optStrJ]
    | some p =>
      have hp : ¬ (p = "") := by intro h; exact hw (by simp [h])
      cases last_checked_at <;>
        simp [ModelState.from_dict, ModelState.to_dict, dget, getStr,
          getOptStr, _to_path, _path_str, optStrJ, hp]

theorem SummaryState.summary_roundtrip (s : SummaryState) (hw : s.wfPaths) :
    SummaryState.from_dict (SummaryState.to_dict s) = s := by
  obtain ⟨h1, h2⟩ := hw
  cases s with
  | mk txt_path json_path updated_at error_message =>
    cases txt_path with
    | none =>
      cases json_path with
      | none =>
        cases updated_at <;>
          simp [SummaryState.from_dict, SummaryState.to_dict, dget, getStr,
            getOptStr, _to_path, _path_str, optStrJ]
      | some pj =>
        have hpj : ¬ (pj = "") := by intro h; exact h2 (by simp [h])
        cases updated_at <;>
          simp [SummaryState.from_dict, SummaryState.to_dict, dget, getStr,
            getOptStr, _to_path, _path_str, optStrJ, hpj]
    | some pt =>
      have hpt : ¬ (pt = "") := by intro h; exact h1 (by simp [h])
      cases json_path with
      | none =>
        cases updated_at <;>
          simp [SummaryState.from_dict, SummaryState.to_dict, dget, getStr,
            getOptStr, _to_path, _path_str, optStrJ, hpt]
      | some pj =>
        have hpj : ¬ (pj = "") := by intro h; exact h2 (by simp [h])
        cases updated_at <;>
          simp [SummaryState.from_dict, SummaryState.to_dict, dget, getStr,
            getOptStr, _to_path, _path_str, optStrJ, hpt, hpj]

theorem DocumentState.document_roundtrip (d : DocumentState) (hw : d.wfPaths) :
    DocumentState.from_dict (DocumentState.to_dict d) = some d := by
  have hs := SummaryState.summary_roundtrip d.summary hw
  cases d with
  | mk doc_id original_name source_path file_ext detected_type detected_confidence
      type_override selected status summary error_message =>
    cases detected_confidence <;>
      simp_all [DocumentState.from_dict, DocumentState.to_dict, dget, dfind,
        getStr, getOptStr, getOptNum, optNumJ, pyTruthy] <;>
      cases selected <;> simp

theorem CaseState.case_roundtrip (c : CaseState) (hw : c.wfPaths) :
    CaseState.from_dict (CaseState.to_dict c) = c := by
  obtain ⟨h1, h2, h3, h4, h5, h6, h7⟩ := hw
  have e1 : _to_path (_path_str c.case_dir) = c.case_dir := by
    cases hc : c.case_dir with
    | none => simp [_to_path, _path_str]
    | some p =>
      have : ¬ (p = "") := by intro h; exact h1 (by simp [hc, h])
      simp [_to_path, _path_str, this]
  have e2 : _to_path (_path_str c.source_zip_path) = c.source_zip_path := by
    cases hc : c.source_zip_path with
    | none => simp [_to_path, _path_str]
    | some p =>
      have : ¬ (p = "") := by intro h; exact h2 (by simp [hc, h])
      simp [_to_path, _path_str, this]
  have e3 : _to_path (_path_str c.extracted_dir) = c.extracted_dir := by
    cases hc : c.extracted_dir with
    | none => simp [_to_path, _path_str]
    | some p =>
      have : ¬ (p = "") := by intro h; exact h3 (by simp [hc, h])
      simp [_to_path, _path_str, this]
  have e4 : _to_path (_path_str c.summaries_dir) = c.summaries_dir := by
    cases hc : c.summaries_dir with
    | none => simp [_to_path, _path_str]
    | some p =>
      have : ¬ (p = "") := by intro h; exact h4 (by simp [hc, h])
      simp [_to_path, _path_str, this]
  have e5 : _to_path (_path_str c.final_dir) = c.final_dir := by
    cases hc : c.final_dir with
    | none => simp [_to_path, _path_str]
    | some p =>
      have : ¬ (p = "") := by intro h; exact h5 (by simp [hc, h])
      simp [_to_path, _path_str, this]
  have e6 : _to_path (_path_str c.selected_zip_path) = c.selected_zip_path := by
    cases hc : c.selected_zip_path with
    | none => simp [_to_path, _path_str]
    | some p =>
      have : ¬ (p = "") := by intro h; exact h6 (by simp [hc, h])
      simp [_to_path, _path_str, this]
  have e7 : _to_path (_path_str c.final_report_path) = c.final_report_path := by
    cases hc : c.final_report_path with
    | none => simp [_to_path, _path_str]
    | some p =>
      have : ¬ (p = "") := by intro h; exact h7 (by simp [hc, h])
      simp [_to_path, _path_str, this]
  have e8 : getOptStr (CaseState.to_dict c) "archive_created_at"
      = c.archive_created_at := by
    cases hc : c.archive_created_at with
    | none => simp [CaseState.to_dict, getOptStr, dget, optStrJ, hc]
    | some s => simp [CaseState.to_dict, getOptStr, dget, optStrJ, hc]
  cases c with
  | mk case_id case_dir source_zip_path extracted_dir summaries_dir final_dir
      selected_zip_path final_report_path archive_created_at =>
    simp only [CaseState.from_dict]
    simp only [CaseState.to_dict, dget, getStr, getOptStr] at e1 e2 e3 e4 e5 e6 e7 e8 ⊢
    simp_all [CaseState.to_dict, dget, getStr]

theorem SettingsState.settings_roundtrip (s : SettingsState) :
    SettingsState.from_dict (SettingsState.to_dict s) = s := by
  cases s with
  | mk language output_formats =>
    simp only [SettingsState.from_dict, SettingsState.to_dict, dget, getStr,
      List.map_map]
    have hid : ((fun v => match v with | JVal.jstr s => s | _ => "")
        ∘ JVal.jstr) = id := rfl
    simp [hid]

theorem documents_mapM_roundtrip (l : List DocumentState)
    (hw : ∀ d ∈ l, d.wfPaths) :
    (l.map (fun d => JVal.jobj d.to_dict)).mapM (fun x =>
        match x with
        | .jobj kvs => DocumentState.from_dict kvs
        | _ => none) = some l := by
  induction l with
  | nil => rfl
  | cons d rest ih =>
    have hd := DocumentState.document_roundtrip d (hw d (by simp))
    simp only [List.map_cons, List.mapM_cons, hd, ih (fun x hx => hw x (by simp [hx])),
      Option.bind_eq_bind, Option.some_bind]
    rfl

/-- Every field of an `AppState` survives `to_dict`/`from_dict` (path slots
hold genuine path strings, which are never empty). -/
theorem AppState.app_roundtrip (st : AppState) (now : String) (hw : st.wfPaths) :
    AppState.from_dict now (AppState.to_dict st) = some st := by
  obtain ⟨h1, h2, h3⟩ := hw
  have em := ModelState.model_roundtrip st.model h1
  have ec := CaseState.case_roundtrip st.case h2
  have es := SettingsState.settings_roundtrip st.settings
  have ed := documents_mapM_roundtrip st.documents h3
  cases st with
  | mk user model case documents settings version updated_at =>
    cases user with
    | mk email =>
      simp only [AppState.from_dict, AppState.to_dict, dget] at em ec es ed ⊢
      simp_all [AppState.from_dict, AppState.to_dict, dget, getStr, pyIntOf]

/-- Saving touches the state and the touched state is what the file holds. -/
theorem save_then_load (st : AppState) (now now2 : String) (hw : st.wfPaths)
    (st' : AppState) (ops : List FsOp) (mp : PPath)
    (h : AppState.save_manifest st now = some (st', ops, mp)) :
    runFsOps ops (fun _ => FileData.absent) mp = FileData.full st'.to_dict ∧
    AppState.load_manifest now2 st'.to_dict = some (st.touch now) := by
  have hrun := (c1_amended st now st' ops mp h).1
  refine ⟨hrun, ?_⟩
  have hst' : st' = st.touch now := by
    unfold AppState.save_manifest at h
    rcases hmp : st.manifest_path with _ | mp0 <;> rw [hmp] at h
    · exact absurd h (by simp)
    · simp only [Option.some.injEq, Prod.mk.injEq] at h
      exact h.1.symm
  have hw' : (st.touch now).wfPaths := by
    obtain ⟨a, b, c⟩ := hw; exact ⟨a, b, c⟩
  rw [hst']
  exact AppState.app_roundtrip (st.touch now) now2 hw'

/-- C4, amended: `from_dict ∘ to_dict` reproduces every field of every state
(whose path slots hold genuine, hence non-empty, path strings — true of every
Python `Path`); and `load_manifest` after `save_manifest` reproduces every
field of the state as saved, which is the original state except `updated_at`:
`save_manifest` itself refreshes that field via `touch` before writing. -/
theorem c4_amended (st : AppState) (now now2 : String) (hw : st.wfPaths) :
    AppState.from_dict now2 (AppState.to_dict st) = some st ∧
    ∀ st' ops mp, AppState.save_manifest st now = some (st', ops, mp) →
      runFsOps ops (fun _ => FileData.absent) mp = FileData.full st'.to_dict ∧
      AppState.load_manifest now2 st'.to_dict = some (st.touch now) :=
  ⟨AppState.app_roundtrip st now2 hw,
   fun st' ops mp h => save_then_load st now now2 hw st' ops mp h⟩

/-- Witness for `c4_amended` at a concrete state. -/
theorem c4_amended_witness :
    AppState.from_dict "2025-01-01T00:00:00" (AppState.to_dict c1_state)
      = some c1_state :=
  (c4_amended c1_state "2024-06-01T00:00:00" "2025-01-01T00:00:00" (by decide)).1

/-- What a restart reads back: run `save_manifest` at a later wall-clock
time, take the file content the trace leaves on disk, `load_manifest` it. -/
def c4_loaded : Option AppState :=
  match AppState.save_manifest c1_state "2025-06-01T12:00:00" with
  | some (_, ops, mp) =>
    (match runFsOps ops (fun _ => FileData.absent) mp with
     | FileData.full content => AppState.load_manifest "2025-06-01T12:00:01" content
     | _ => none)
  | none => none

/-- C4, counterexample: `load_manifest (save_manifest st)` does not reproduce
the original state — it yields the state with `updated_at` refreshed by the
`touch` inside `save_manifest`, which differs from the original whenever the
clock moved on. -/
theorem c4_counterexample :
    c4_loaded = some (c1_state.touch "2025-06-01T12:00:00") ∧
    c4_loaded ≠ some c1_state := by
  constructor
  · decide
  · decide

-- ===========================================================================
-- C8 : idempotence of resume normalization
-- ===========================================================================

/-- One document normalizes to a fixed point in a single pass. -/
theorem normalizeDoc_idem (sd : Option PPath) (fs : PPath → Bool)
    (d : DocumentState) :
    normalizeDoc sd fs (normalizeDoc sd fs d).1 = ((normalizeDoc sd fs d).1, false) := by
  obtain ⟨id, nm, sp, ext, dt, dc, tov, sel, st, sm, em⟩ := d
  have hart3 : ∀ sel2 st2 em2,
      summaryArtifactsExist sd fs ⟨id, nm, sp, ext, dt, dc, tov, sel2, st2, sm, em2⟩
        = summaryArtifactsExist sd fs ⟨id, nm, sp, ext, dt, dc, tov, sel, st, sm, em⟩ :=
    fun _ _ _ => rfl
  cases sel with
  | false =>
    by_cases hst : st = "skipped" <;>
      simp [normalizeDoc, hst, hart3, DOC_STATUS_SKIPPED, DOC_STATUS_SUMMARIZING,
        DOC_STATUS_SUMMARIZED, DOC_STATUS_DETECTED, DOC_STATUS_EXTRACTED]
  | true =>
    by_cases hartE : summaryArtifactsExist sd fs ⟨id, nm, sp, ext, dt, dc, tov,
        true, st, sm, em⟩ = true
    · by_cases hst : st = "summarized" <;>
        simp [normalizeDoc, hartE, hst, hart3, DOC_STATUS_SKIPPED,
          DOC_STATUS_SUMMARIZING, DOC_STATUS_SUMMARIZED, DOC_STATUS_DETECTED,
          DOC_STATUS_EXTRACTED]
    · have hartF : summaryArtifactsExist sd fs ⟨id, nm, sp, ext, dt, dc, tov,
          true, st, sm, em⟩ = false := by simpa using hartE
      have hart4 : ∀ sel2 st2 em2,
          summaryArtifactsExist sd fs ⟨id, nm, sp, ext, dt, dc, tov, sel2, st2, sm, em2⟩
            = false := fun sel2 st2 em2 => (hart3 sel2 st2 em2).trans hartF
      by_cases h3 : st = "summarizing"
      · simp [normalizeDoc, hart4, h3, DOC_STATUS_SKIPPED, DOC_STATUS_SUMMARIZING,
          DOC_STATUS_SUMMARIZED, DOC_STATUS_QUEUED, DOC_STATUS_DETECTED,
          DOC_STATUS_EXTRACTED]
      · by_cases h4 : st = "detected" ∨ st = "extracted"
        · rcases h4 with h4 | h4 <;>
            simp [normalizeDoc, hart4, h3, h4, DOC_STATUS_SKIPPED,
              DOC_STATUS_SUMMARIZING, DOC_STATUS_SUMMARIZED, DOC_STATUS_QUEUED,
              DOC_STATUS_DETECTED, DOC_STATUS_EXTRACTED]
        · push_neg at h4
          simp [normalizeDoc, hart4, h3, h4.1, h4.2, DOC_STATUS_SKIPPED,
            DOC_STATUS_SUMMARIZING, DOC_STATUS_SUMMARIZED, DOC_STATUS_QUEUED,
            DOC_STATUS_DETECTED, DOC_STATUS_EXTRACTED]

/-- C8: the resume-normalization step is idempotent — with the filesystem
unchanged, a second run right after a first changes no document (statuses и
error messages included) and reports `changed = false`, so no second manifest
save is triggered. -/
theorem c8_idempotent (st : AppState) (fs : PPath → Bool) :
    _normalize_resume_state ((_normalize_resume_state st fs).1) fs
      = ((_normalize_resume_state st fs).1, false) := by
  unfold _normalize_resume_state normalizeDocs
  simp only [List.map_map]
  have h1 : ∀ d, (normalizeDoc st.case.summaries_dir fs
      ((normalizeDoc st.case.summaries_dir fs d).1)).1
        = (normalizeDoc st.case.summaries_dir fs d).1 :=
    fun d => by rw [normalizeDoc_idem]
  have h2 : ∀ d, (normalizeDoc st.case.summaries_dir fs
      ((normalizeDoc st.case.summaries_dir fs d).1)).2 = false :=
    fun d => by rw [normalizeDoc_idem]
  simp [Function.comp, h1, h2]

-- ===========================================================================
-- C10 : either artifact alone forces `summarized`
-- ===========================================================================

def c10_sd : PPath := "/cases/c1/summaries"

def c10_doc : DocumentState :=
  { doc_id := "d10", source_path := "/cases/c1/extracted/a.pdf",
    selected := true, status := DOC_STATUS_SUMMARIZED, error_message := "boom" }

def c10_fs : PPath → Bool := fun p => p = "/cases/c1/summaries/a_summary.txt"

/-- C10, counterexample: for a selected document whose `.txt` artifact exists
but whose status already reads `summarized` while `error_message` is
non-empty, normalization does not clear the error text — the artifact branch
only fires when the status is not yet `summarized`. -/
theorem c10_counterexample :
    summaryArtifactsExist (some c10_sd) c10_fs c10_doc = true ∧
    (normalizeDoc (some c10_sd) c10_fs c10_doc).1.status = DOC_STATUS_SUMMARIZED ∧
    (normalizeDoc (some c10_sd) c10_fs c10_doc).1.error_message = "boom" ∧
    "boom" ≠ "" := by
  refine ⟨by decide, by decide, by decide, by decide⟩

/-- C10, amended: during resume normalization the existence of either summary
artifact alone (`.txt` or `.json`) forces a selected document to status
`summarized`, taking precedence over the `summarizing → queued` reset and the
stale-state advancement (the result is never `queued`); the `error_message`
is cleared when — and only when — the status was not already `summarized`. -/
theorem c10_amended (sd : PPath) (fs : PPath → Bool) (d : DocumentState)
    (hsel : d.selected = true)
    (hart : fs (_summary_paths_for_doc sd d).2 = true ∨
            fs (_summary_paths_for_doc sd d).1 = true) :
    (normalizeDoc (some sd) fs d).1.status = DOC_STATUS_SUMMARIZED ∧
    (d.status ≠ DOC_STATUS_SUMMARIZED →
      (normalizeDoc (some sd) fs d).1.error_message = "") ∧
    (d.status = DOC_STATUS_SUMMARIZED →
      (normalizeDoc (some sd) fs d).1.error_message = d.error_message) := by
  have hartE : summaryArtifactsExist (some sd) fs d = true := by
    unfold summaryArtifactsExist
    rcases hart with h | h <;> simp [h]
  by_cases hst : d.status = DOC_STATUS_SUMMARIZED
  · refine ⟨?_, fun hc => absurd hst hc, fun _ => ?_⟩ <;>
      simp [normalizeDoc, hsel, hartE, hst, DOC_STATUS_SUMMARIZED,
        DOC_STATUS_SUMMARIZING, DOC_STATUS_DETECTED, DOC_STATUS_EXTRACTED]
  · refine ⟨?_, fun _ => ?_, fun hc => absurd hc hst⟩ <;>
      simp [normalizeDoc, hsel, hartE, hst]

/-- Witness for `c10_amended`: txt artifact only, interrupted document. -/
def c10_doc2 : DocumentState :=
  { doc_id := "d10b", source_path := "/cases/c1/extracted/b.pdf",
    selected := true, status := DOC_STATUS_SUMMARIZING, error_message := "x" }

def c10_fs2 : PPath → Bool := fun p => p = "/cases/c1/summaries/b_summary.txt"

theorem c10_amended_witness :
    (normalizeDoc (some c10_sd) c10_fs2 c10_doc2).1.status = DOC_STATUS_SUMMARIZED ∧
    (c10_doc2.status ≠ DOC_STATUS_SUMMARIZED →
      (normalizeDoc (some c10_sd) c10_fs2 c10_doc2).1.error_message = "") ∧
    (c10_doc2.status = DOC_STATUS_SUMMARIZED →
      (normalizeDoc (some c10_sd) c10_fs2 c10_doc2).1.error_message
        = c10_doc2.error_message) :=
  c10_amended c10_sd c10_fs2 c10_doc2 (by decide) (Or.inl (by decide))

-- ===========================================================================
-- C7 : resume re-queueing and the claim order of the summarization loop
-- ===========================================================================

/-- `find?` returns the first element satisfying the predicate. -/
theorem find?_first_of_split {α : Type} (p : α → Bool) (l1 : List α) (d : α)
    (l2 : List α) (h1 : ∀ e ∈ l1, p e = false) (hd : p d = true) :
    List.find? p (l1 ++ d :: l2) = some d := by
  induction l1 with
  | nil => simp [List.find?, hd]
  | cons x rest ih =>
    have hx : p x = false := h1 x (by simp)
    simp only [List.cons_append, List.find?, hx]
    exact ih (fun e he => h1 e (by simp [he]))

def c7_sd : Option PPath := some "/cases/c1/summaries"

def c7_docA : DocumentState :=
  { doc_id := "a", source_path := "/cases/c1/extracted/a.pdf",
    selected := true, status := DOC_STATUS_QUEUED }

def c7_docB : DocumentState :=
  { doc_id := "b", source_path := "/cases/c1/extracted/b.pdf",
    selected := true, status := DOC_STATUS_SUMMARIZING }

def c7_fsNone : PPath → Bool := fun _ => false

def c7_docs : List DocumentState := [c7_docA, c7_docB]

/-- C7, counterexample: document `b` was interrupted mid-summarization (no
artifacts on disk) and is reset to `queued` by normalization — but it is not
the next document claimed: the loop claims `a`, the earlier queued document
in batch order. -/
theorem c7_counterexample :
    ((normalizeDocs c7_sd c7_fsNone c7_docs).1.getD 1 c7_docA).status
        = DOC_STATUS_QUEUED ∧
    (next_queued (normalizeDocs c7_sd c7_fsNone c7_docs).1).map (·.doc_id)
        = some "a" ∧
    ((normalizeDocs c7_sd c7_fsNone c7_docs).1.getD 1 c7_docA).doc_id = "b" ∧
    "a" ≠ "b" := by
  refine ⟨by decide, by decide, by decide, by decide⟩

/-- C7, amended: after resume normalization (1) every selected document that
was `summarizing` and has no artifacts on disk is re-queued, (2) every
selected document whose summary artifacts exist is forced to `summarized`,
(3) the loop claims only `queued` documents — never a `summarized` one, so
the model is not re-invoked for them — and (4) it claims the first `queued`
document in batch order; the re-queued document is the next claimed exactly
when no document before it is queued. -/
theorem c7_amended (sd : Option PPath) (fs : PPath → Bool)
    (docs : List DocumentState) :
    (∀ d ∈ docs, d.selected = true → d.status = DOC_STATUS_SUMMARIZING →
        summaryArtifactsExist sd fs d = false →
        (normalizeDoc sd fs d).1.status = DOC_STATUS_QUEUED) ∧
    (∀ d ∈ docs, d.selected = true → summaryArtifactsExist sd fs d = true →
        (normalizeDoc sd fs d).1.status = DOC_STATUS_SUMMARIZED) ∧
    (∀ d, next_queued (normalizeDocs sd fs docs).1 = some d →
        d.status = DOC_STATUS_QUEUED ∧ d.status ≠ DOC_STATUS_SUMMARIZED) ∧
    (∀ l1 d l2, (normalizeDocs sd fs docs).1 = l1 ++ d :: l2 →
        (∀ e ∈ l1, e.status ≠ DOC_STATUS_QUEUED) → d.status = DOC_STATUS_QUEUED →
        next_queued (normalizeDocs sd fs docs).1 = some d) := by
  refine ⟨?_, ?_, ?_, ?_⟩
  · intro d _ hsel hst hart
    simp [normalizeDoc, hsel, hst, hart, DOC_STATUS_SUMMARIZING,
      DOC_STATUS_SUMMARIZED, DOC_STATUS_QUEUED]
  · intro d _ hsel hart
    by_cases hst : d.status = "summarized" <;>
      simp [normalizeDoc, hsel, hart, hst, DOC_STATUS_SUMMARIZED,
        DOC_STATUS_SUMMARIZING, DOC_STATUS_DETECTED, DOC_STATUS_EXTRACTED]
  · intro d hfind
    have hp := List.find?_some hfind
    have hq : d.status = DOC_STATUS_QUEUED := by simpa using hp
    refine ⟨hq, ?_⟩
    rw [hq]
    simp [DOC_STATUS_QUEUED, DOC_STATUS_SUMMARIZED]
  · intro l1 d l2 hsplit h1 hd
    unfold next_queued
    rw [hsplit]
    exact find?_first_of_split _ l1 d l2
      (fun e he => by simpa using h1 e he) (by simpa using hd)

/-- Witness for `c7_amended`: with `b` the only document, normalization
re-queues it and the loop claims it next. -/
theorem c7_amended_witness :
    (normalizeDoc c7_sd c7_fsNone c7_docB).1.status = DOC_STATUS_QUEUED ∧
    next_queued (normalizeDocs c7_sd c7_fsNone [c7_docB]).1
      = some ((normalizeDocs c7_sd c7_fsNone [c7_docB]).1.getD 0 c7_docB) := by
  constructor
  · exact (c7_amended c7_sd c7_fsNone [c7_docB]).1 c7_docB (by decide)
      (by decide) (by decide) (by decide)
  · exact (c7_amended c7_sd c7_fsNone [c7_docB]).2.2.2 []
      ((normalizeDocs c7_sd c7_fsNone [c7_docB]).1.getD 0 c7_docB) []
      (by decide) (by intro e he; simp at he) (by decide)

-- ===========================================================================
-- C6 : the chunker
-- ===========================================================================

theorem take_self_length (t : Str) (a : ℕ) :
    t.take a = t.take ((t.take a).length) := by
  rw [List.length_take, List.take_eq_take]
  omega

/-- Each window `_chunk` emits is a prefix of the remaining text. -/
theorem chunk_piece_is_take (c : ℕ) (t : Str) :
    _chunk_piece c t = t.take ((_chunk_piece c t).length) := by
  unfold _chunk_piece
  cases h : rfindNewline (t.take c) with
  | none => simp only [h]; exact take_self_length t c
  | some j =>
    by_cases hj : c * 6 / 10 < j
    · simp only [h, hj, if_true, List.take_take]
      exact take_self_length t (min j c)
    · simp only [h, hj, if_false]
      exact take_self_length t c

/-- No emitted window exceeds `max_chars`. -/
theorem chunk_piece_len_le (c : ℕ) (t : Str) : (_chunk_piece c t).length ≤ c := by
  unfold _chunk_piece
  cases h : rfindNewline (t.take c) with
  | none => simp only [h, List.length_take]; omega
  | some j =>
    by_cases hj : c * 6 / 10 < j <;>
      simp only [h, hj, if_true, if_false, List.take_take, List.length_take] <;> omega

/-- Each window consumes at least one character (for `max_chars ≥ 1`). -/
theorem chunk_piece_pos (c : ℕ) (hc : 1 ≤ c) (t : Str) (ht : t ≠ []) :
    1 ≤ (_chunk_piece c t).length := by
  have htlen : 1 ≤ t.length := List.length_pos.mpr ht
  unfold _chunk_piece
  cases h : rfindNewline (t.take c) with
  | none => simp only [h, List.length_take]; omega
  | some j =>
    by_cases hj : c * 6 / 10 < j
    · simp only [h, hj, if_true, List.take_take, List.length_take]
      omega
    · simp only [h, hj, if_false, List.length_take]
      omega

/-- The loop of `_chunk` decomposes its input into contiguous nonempty
windows of at most `c` characters and returns them stripped. -/
theorem chunk_loop_cover (c : ℕ) (hc : 1 ≤ c) :
    ∀ (fuel : ℕ) (t : Str), t.length ≤ fuel →
    ∃ pieces : List Str,
      t = pieces.flatten ∧
      _chunk_loop c fuel t = pieces.map pyStrip ∧
      ∀ p ∈ pieces, 1 ≤ p.length ∧ p.length ≤ c := by
  intro fuel
  induction fuel with
  | zero =>
    intro t hlen
    have ht : t = [] := by cases t <;> simp_all
    subst ht
    exact ⟨[], by simp, rfl, by simp⟩
  | succ fuel ih =>
    intro t hlen
    cases t with
    | nil => exact ⟨[], by simp, rfl, by simp⟩
    | cons x rest =>
      have hne : (x :: rest : Str) ≠ [] := by simp
      have hp1 : 1 ≤ (_chunk_piece c (x :: rest)).length :=
        chunk_piece_pos c hc (x :: rest) hne
      have hple : (_chunk_piece c (x :: rest)).length ≤ c :=
        chunk_piece_len_le c (x :: rest)
      have hlen2 : rest.length + 1 ≤ fuel + 1 := by
        simpa using hlen
      obtain ⟨ps, hfl, hloop, hbnd⟩ :=
        ih ((x :: rest).drop (_chunk_piece c (x :: rest)).length)
          (by simp only [List.length_drop, List.length_cons]; omega)
      refine ⟨_chunk_piece c (x :: rest) :: ps, ?_, ?_, ?_⟩
      · simp only [List.flatten_cons, ← hfl]
        conv_lhs =>
          rw [← List.take_append_drop ((_chunk_piece c (x :: rest)).length) (x :: rest)]
        rw [← chunk_piece_is_take]
      · show _chunk_loop c (fuel + 1) (x :: rest) = _
        rw [_chunk_loop]
        rw [if_neg (by omega : ¬ (_chunk_piece c (x :: rest)).length = 0)]
        rw [hloop, List.map_cons]
      · intro p hp
        rcases List.mem_cons.mp hp with hp | hp
        · subst hp; exact ⟨hp1, hple⟩
        · exact hbnd p hp

/-- C6: for every text `t` and chunk size `c ≥ 1`, `_chunk(t, c)` terminates
(it is a total function whose windows each consume at least one character),
the consumed windows decompose the stripped text contiguously — no gaps, in
order — every returned chunk is its window stripped of boundary whitespace,
and no window (hence no chunk) exceeds `c` characters. -/
theorem c6_chunk_spec (text : Str) (c : ℕ) (hc : 1 ≤ c) :
    ∃ pieces : List Str,
      pyStrip text = pieces.flatten ∧
      _chunk text c = pieces.map pyStrip ∧
      ∀ p ∈ pieces, 1 ≤ p.length ∧ p.length ≤ c :=
  chunk_loop_cover c hc (pyStrip text).length (pyStrip text) le_rfl

/-- Witness for `c6_chunk_spec` on a concrete text. -/
theorem c6_chunk_spec_witness :
    ∃ pieces : List Str,
      pyStrip "ab cd\nef".toList = pieces.flatten ∧
      _chunk "ab cd\nef".toList 3 = pieces.map pyStrip ∧
      ∀ p ∈ pieces, 1 ≤ p.length ∧ p.length ≤ 3 :=
  c6_chunk_spec "ab cd\nef".toList 3 (by omega)

-- ===========================================================================
-- C2 : Scenario E (chunk count, partial cap, reduce rounds)
-- ===========================================================================

theorem dropWhile_replicate_space (n : ℕ) :
    List.dropWhile isPyWs (List.replicate n ' ') = [] := by
  induction n with
  | zero => rfl
  | succ n ih =>
    rw [List.replicate_succ]
    have hsp : isPyWs ' ' = true := by decide
    simp [List.dropWhile_cons, hsp, ih]

theorem pyStrip_replicate_space (n : ℕ) :
    pyStrip (List.replicate n ' ') = [] := by
  unfold pyStrip
  rw [dropWhile_replicate_space]
  rfl

/-- C2, counterexample: a 20,000-character input consisting of spaces only is
chunked (at the configured 1,800) into 0 chunks — not 11 or 12; the chunk
count is not determined by the character count alone. -/
theorem c2_counterexample :
    (_chunk (List.replicate 20000 ' ') MAX_CHARS_PER_CHUNK).length = 0 ∧
    ¬(11 ≤ (_chunk (List.replicate 20000 ' ') MAX_CHARS_PER_CHUNK).length ∧
        (_chunk (List.replicate 20000 ' ') MAX_CHARS_PER_CHUNK).length ≤ 12) := by
  have h : _chunk (List.replicate 20000 ' ') MAX_CHARS_PER_CHUNK = [] := by
    unfold _chunk
    rw [pyStrip_replicate_space]
    rfl
  rw [h]
  exact ⟨rfl, by simp⟩

theorem dropWhile_eq_self_of_all_false {α : Type} (p : α → Bool) (l : List α)
    (h : ∀ x ∈ l, p x = false) : l.dropWhile p = l := by
  cases l with
  | nil => rfl
  | cons x xs => simp [List.dropWhile_cons, h x (by simp)]

theorem pyStrip_id_of_nows (t : Str) (h : ∀ ch ∈ t, isPyWs ch = false) :
    pyStrip t = t := by
  unfold pyStrip
  rw [dropWhile_eq_self_of_all_false isPyWs t h,
    dropWhile_eq_self_of_all_false isPyWs t.reverse
      (fun x hx => h x (List.mem_reverse.mp hx)),
    List.reverse_reverse]

theorem rfindNewline_eq_none (s : Str) (h : ∀ ch ∈ s, ¬ ch = '\n') :
    rfindNewline s = none := by
  unfold rfindNewline
  have hf : s.reverse.findIdx? (· = '\n') = none := by
    rw [List.findIdx?_eq_none_iff]
    intro x hx
    simpa using h x (List.mem_reverse.mp hx)
  rw [hf]

theorem chunk_piece_nonl (c : ℕ) (t : Str) (h : ∀ ch ∈ t, ¬ ch = '\n') :
    _chunk_piece c t = t.take c := by
  unfold _chunk_piece
  simp only [rfindNewline_eq_none (t.take c)
    (fun ch hch => h ch (List.take_subset c t hch))]

/-- One step of the ceiling-division recurrence used by the window counts. -/
theorem ceilDiv_step (n c : ℕ) (hc : 1 ≤ c) (hn : 1 ≤ n) :
    (n - min c n + c - 1) / c + 1 = (n + c - 1) / c := by
  rw [show n + c - 1 = (n - 1) + c by omega, Nat.add_div_right _ (by omega)]
  congr 1
  rcases le_or_lt n c with hle | hlt
  · rw [show n - min c n + c - 1 = c - 1 by omega,
      Nat.div_eq_of_lt (by omega), Nat.div_eq_of_lt (by omega)]
  · rw [show min c n = c by omega, show n - c + c - 1 = n - 1 by omega]

/-- On newline-free, whitespace-free text the chunk loop produces exactly
⌈length / c⌉ windows. -/
theorem chunk_loop_count_nows (c : ℕ) (hc : 1 ≤ c) :
    ∀ (fuel : ℕ) (t : Str), t.length ≤ fuel →
    (∀ ch ∈ t, isPyWs ch = false) →
    (_chunk_loop c fuel t).length = (t.length + c - 1) / c := by
  intro fuel
  induction fuel with
  | zero =>
    intro t hlen h
    have ht : t = [] := by cases t <;> simp_all
    subst ht
    show (List.length ([] : List Str)) = _
    simp only [List.length_nil]
    exact (Nat.div_eq_of_lt (by omega : 0 + c - 1 < c)).symm
  | succ fuel ih =>
    intro t hlen h
    cases t with
    | nil =>
      show (List.length ([] : List Str)) = _
      simp only [List.length_nil]
      exact (Nat.div_eq_of_lt (by omega : 0 + c - 1 < c)).symm
    | cons x rest =>
      have hnl : ∀ ch ∈ (x :: rest : Str), ¬ ch = '\n' := by
        intro ch hch heq
        subst heq
        exact absurd (h '\n' hch) (by decide)
      have hpiece : _chunk_piece c (x :: rest) = (x :: rest).take c :=
        chunk_piece_nonl c (x :: rest) hnl
      have hplen : (_chunk_piece c (x :: rest)).length = min c (x :: rest).length := by
        rw [hpiece, List.length_take]
      have htpos : 1 ≤ (x :: rest : Str).length := by simp
      rw [_chunk_loop]
      rw [if_neg (by omega : ¬ (_chunk_piece c (x :: rest)).length = 0)]
      simp only [List.length_cons]
      have hdrop : ∀ ch ∈ (x :: rest).drop (_chunk_piece c (x :: rest)).length,
          isPyWs ch = false :=
        fun ch hch => h ch (List.drop_subset _ (x :: rest) hch)
      rw [ih ((x :: rest).drop (_chunk_piece c (x :: rest)).length)
        (by simp only [List.length_drop, List.length_cons] at *; omega) hdrop]
      simp only [List.length_drop, hplen]
      exact ceilDiv_step (x :: rest : Str).length c hc htpos

/-- With an oracle that never raises, the MAP stage yields one partial per
chunk and leaves the context budget untouched. -/
theorem mapChunks_total (gen : GenOracle)
    (hgen : ∀ p m, ∃ s, gen p m = Except.ok s) (tmpl sys : Str)
    (chunks : List Str) (ctx : ℕ) :
    ∃ ps, mapChunks gen tmpl sys chunks ctx = .ok (ps, ctx) ∧
      ps.length = chunks.length := by
  induction chunks with
  | nil => exact ⟨[], rfl, rfl⟩
  | cons ch rest ih =>
    obtain ⟨s, hs⟩ := hgen (_fit_prompt_to_ctx sys tmpl ch ctx) MAX_NEW_TOKENS
    obtain ⟨ps, hps, hlen⟩ := ih
    refine ⟨_clean_echo (pyStrip s) :: ps, ?_, by simp [hlen]⟩
    unfold mapChunks
    simp only [_generate, hs, hps]

theorem mapExcept_total {α β ε : Type} (f : α → Except ε β)
    (hf : ∀ x, ∃ y, f x = .ok y) (l : List α) :
    ∃ ys, mapExcept f l = .ok ys ∧ ys.length = l.length := by
  induction l with
  | nil => exact ⟨[], rfl, rfl⟩
  | cons x rest ih =>
    obtain ⟨y, hy⟩ := hf x
    obtain ⟨ys, hys, hlen⟩ := ih
    refine ⟨y :: ys, ?_, by simp [hlen]⟩
    unfold mapExcept
    rw [hy, hys]

theorem groupsOf_length {α : Type} (k : ℕ) (hk : 1 ≤ k) :
    ∀ (fuel : ℕ) (l : List α), l.length ≤ fuel →
    (groupsOf k fuel l).length = (l.length + k - 1) / k := by
  intro fuel
  induction fuel with
  | zero =>
    intro l hlen
    have hl : l = [] := by cases l <;> simp_all
    subst hl
    show (List.length ([] : List (List α))) = _
    simp only [List.length_nil]
    exact (Nat.div_eq_of_lt (by omega : 0 + k - 1 < k)).symm
  | succ fuel ih =>
    intro l hlen
    cases l with
    | nil =>
      show (List.length ([] : List (List α))) = _
      simp only [List.length_nil]
      exact (Nat.div_eq_of_lt (by omega : 0 + k - 1 < k)).symm
    | cons x rest =>
      rw [groupsOf, if_neg (by omega : ¬ k = 0)]
      simp only [List.length_cons]
      rw [ih ((x :: rest).drop k)
        (by simp only [List.length_drop, List.length_cons] at *; omega)]
      simp only [List.length_drop, List.length_cons]
      rw [show rest.length + 1 - k = rest.length + 1 - min k (rest.length + 1) by omega]
      exact ceilDiv_step (rest.length + 1) k hk (by omega)

/-- A never-raising oracle never yields an error through `_generate`. -/
theorem generate_ne_error (gen : GenOracle)
    (hgen : ∀ p m, ∃ s, gen p m = Except.ok s) (prompt : Str) (mn : Option ℕ)
    (e : String) : _generate gen prompt mn ≠ .error e := by
  intro hcontr
  cases mn with
  | none =>
    obtain ⟨s, hs⟩ := hgen prompt MAX_NEW_TOKENS
    have he : _generate gen prompt none = gen prompt MAX_NEW_TOKENS := rfl
    rw [he, hs] at hcontr
    exact absurd hcontr (by simp)
  | some m =>
    by_cases hm : m = 0
    · subst hm
      obtain ⟨s, hs⟩ := hgen prompt MAX_NEW_TOKENS
      have he : _generate gen prompt (some 0) = gen prompt MAX_NEW_TOKENS := rfl
      rw [he, hs] at hcontr
      exact absurd hcontr (by simp)
    · obtain ⟨s, hs⟩ := hgen prompt m
      have he : _generate gen prompt (some m) = gen prompt m := by
        unfold _generate
        simp [hm]
      rw [he, hs] at hcontr
      exact absurd hcontr (by simp)

/-- With an oracle that never raises, `_reduce_group` succeeds. -/
theorem reduce_group_total (gen : GenOracle)
    (hgen : ∀ p m, ∃ s, gen p m = Except.ok s) (g : List Str) (sys : Str)
    (ctx : ℕ) : ∃ out, _reduce_group gen g sys ctx = .ok out := by
  unfold _reduce_group
  dsimp only
  split
  · exact ⟨_, rfl⟩
  · rename_i e heq
    exact absurd heq (generate_ne_error gen hgen _ _ e)

/-- One successful pass of the reduce loop. -/
theorem reduceLoopF_step (gen : GenOracle) (sys : Str) (ctx fuel : ℕ)
    (ps qs : List Str) (rounds : ℕ) (h2 : 2 ≤ ps.length)
    (hm : mapExcept (fun g => _reduce_group gen g sys ctx)
        (groupsOf AGGREGATE_GROUP_SIZE ps.length ps) = .ok qs) :
    reduceLoopF gen sys ctx (fuel + 1) ps rounds
      = reduceLoopF gen sys ctx fuel qs (rounds + 1) := by
  rw [reduceLoopF]
  rw [if_neg (by omega), hm]

/-- The reduce loop stops at one (or zero) summaries. -/
theorem reduceLoopF_done (gen : GenOracle) (sys : Str) (ctx fuel : ℕ)
    (ps : List Str) (rounds : ℕ) (h : ps.length ≤ 1) :
    reduceLoopF gen sys ctx (fuel + 1) ps rounds = .ok (ps, rounds) := by
  rw [reduceLoopF, if_pos h]

/-- C2, amended: a 20,000-character document with no whitespace characters
chunks at the configured 1,800 into exactly 12 windows (whitespace-laden
inputs can give fewer — see the counterexample — or more); the Map stage
produces one partial per chunk and the cap keeps the first
`AGGREGATE_MAX_PARTIALS = 6` of them (the configured maximum is 6, not 11);
and the Reduce stage with group size 4 brings those 6 partials to exactly one
summary in 2 reduce rounds (6 → 2 → 1). -/
theorem c2_amended (t : Str) (hnw : ∀ ch ∈ t, isPyWs ch = false)
    (hlen : t.length = 20000) (gen : GenOracle)
    (hgen : ∀ p m, ∃ s, gen p m = Except.ok s) (tmpl sys : Str) (ctx : ℕ) :
    (_chunk t MAX_CHARS_PER_CHUNK).length = 12 ∧
    ∃ partials,
      mapChunks gen tmpl sys (_chunk t MAX_CHARS_PER_CHUNK) ctx
        = .ok (partials, ctx) ∧
      partials.length = 12 ∧
      (partials.take AGGREGATE_MAX_PARTIALS).length = AGGREGATE_MAX_PARTIALS ∧
      ∃ s, reduceLoopF gen sys ctx (partials.take AGGREGATE_MAX_PARTIALS).length
             (partials.take AGGREGATE_MAX_PARTIALS) 0 = .ok ([s], 2) := by
  have hchunks : (_chunk t MAX_CHARS_PER_CHUNK).length = 12 := by
    unfold _chunk
    rw [pyStrip_id_of_nows t hnw,
      chunk_loop_count_nows MAX_CHARS_PER_CHUNK (by norm_num [MAX_CHARS_PER_CHUNK])
        t.length t le_rfl hnw,
      hlen]
    norm_num [MAX_CHARS_PER_CHUNK]
  refine ⟨hchunks, ?_⟩
  obtain ⟨partials, hmap, hplen⟩ :=
    mapChunks_total gen hgen tmpl sys (_chunk t MAX_CHARS_PER_CHUNK) ctx
  rw [hchunks] at hplen
  have htake : (partials.take AGGREGATE_MAX_PARTIALS).length = AGGREGATE_MAX_PARTIALS := by
    rw [List.length_take, hplen]
    norm_num [AGGREGATE_MAX_PARTIALS]
  refine ⟨partials, hmap, hplen, htake, ?_⟩
  have hrgt : ∀ g, ∃ y, _reduce_group gen g sys ctx = .ok y :=
    fun g => reduce_group_total gen hgen g sys ctx
  -- round 1 : 6 partials → 2 groups → 2 partials
  obtain ⟨qs, hqs, hqlen⟩ :=
    mapExcept_total (fun g => _reduce_group gen g sys ctx) hrgt
      (groupsOf AGGREGATE_GROUP_SIZE (partials.take AGGREGATE_MAX_PARTIALS).length
        (partials.take AGGREGATE_MAX_PARTIALS))
  rw [groupsOf_length AGGREGATE_GROUP_SIZE (by norm_num [AGGREGATE_GROUP_SIZE])
      (partials.take AGGREGATE_MAX_PARTIALS).length
      (partials.take AGGREGATE_MAX_PARTIALS) le_rfl,
    htake] at hqlen
  have hqlen2 : qs.length = 2 := by
    rw [hqlen]; norm_num [AGGREGATE_MAX_PARTIALS, AGGREGATE_GROUP_SIZE]
  -- round 2 : 2 partials → 1 group → 1 partial
  obtain ⟨rs, hrs, hrlen⟩ :=
    mapExcept_total (fun g => _reduce_group gen g sys ctx) hrgt
      (groupsOf AGGREGATE_GROUP_SIZE qs.length qs)
  rw [groupsOf_length AGGREGATE_GROUP_SIZE (by norm_num [AGGREGATE_GROUP_SIZE])
      qs.length qs le_rfl,
    hqlen2] at hrlen
  have hrlen1 : rs.length = 1 := by
    rw [hrlen]; norm_num [AGGREGATE_GROUP_SIZE]
  obtain ⟨s, hsr⟩ := List.length_eq_one.mp hrlen1
  refine ⟨s, ?_⟩
  have htake6 : (partials.take AGGREGATE_MAX_PARTIALS).length = 6 := by
    rw [htake]; rfl
  rw [htake6]
  have e1 : reduceLoopF gen sys ctx 6 (partials.take AGGREGATE_MAX_PARTIALS) 0
      = reduceLoopF gen sys ctx 5 qs 1 :=
    reduceLoopF_step gen sys ctx 5 (partials.take AGGREGATE_MAX_PARTIALS) qs 0
      (by omega) hqs
  have e2 : reduceLoopF gen sys ctx 5 qs 1 = reduceLoopF gen sys ctx 4 rs 2 :=
    reduceLoopF_step gen sys ctx 4 qs rs 1 (by omega) hrs
  have e3 : reduceLoopF gen sys ctx 4 rs 2 = .ok (rs, 2) :=
    reduceLoopF_done gen sys ctx 3 rs 2 (by omega)
  rw [e1, e2, e3, hsr]

/-- Witness oracle for `c2_amended`. -/
def c2_gen : GenOracle := fun _ _ => .ok "ok".toList

/-- Witness for `c2_amended` at the all-'a' 20,000-character document. -/
theorem c2_amended_witness :
    (_chunk (List.replicate 20000 'a') MAX_CHARS_PER_CHUNK).length = 12 ∧
    ∃ partials,
      mapChunks c2_gen [] [] (_chunk (List.replicate 20000 'a') MAX_CHARS_PER_CHUNK)
        N_CTX = .ok (partials, N_CTX) ∧
      partials.length = 12 ∧
      (partials.take AGGREGATE_MAX_PARTIALS).length = AGGREGATE_MAX_PARTIALS ∧
      ∃ s, reduceLoopF c2_gen [] N_CTX (partials.take AGGREGATE_MAX_PARTIALS).length
             (partials.take AGGREGATE_MAX_PARTIALS) 0 = .ok ([s], 2) :=
  c2_amended (List.replicate 20000 'a')
    (fun ch hch => by rw [List.eq_of_mem_replicate hch]; decide)
    (by rw [List.length_replicate]) c2_gen (fun p m => ⟨"ok".toList, rfl⟩) [] [] N_CTX

-- ===========================================================================
-- C9 : the shared context budget (`_effective_ctx`) is sticky
-- ===========================================================================

/-- The value the module-global `_effective_ctx` holds after a MAP stage,
whether it returned or raised. -/
def exCtx : Except (String × ℕ) (List Str × ℕ) → ℕ
  | .ok (_, c) => c
  | .error (_, c) => c

/-- The value the module-global `_effective_ctx` holds after a whole
`summarize_document` call, whether it returned or raised. -/
def exCtxS : Except (String × ℕ) (Str × ℕ) → ℕ
  | .ok (_, c) => c
  | .error (_, c) => c

/-- Through the MAP stage the budget either stays put or is overwritten with
one of the fallback tiers 512 / 1024 / 768. -/
theorem mapChunks_ctx (gen : GenOracle) (tmpl sys : Str) (chunks : List Str)
    (ctx : ℕ) :
    exCtx (mapChunks gen tmpl sys chunks ctx) = ctx ∨
    exCtx (mapChunks gen tmpl sys chunks ctx) = 512 ∨
    exCtx (mapChunks gen tmpl sys chunks ctx) = 1024 ∨
    exCtx (mapChunks gen tmpl sys chunks ctx) = 768 := by
  induction chunks generalizing ctx with
  | nil => left; rfl
  | cons ch rest ih =>
    unfold mapChunks
    cases hg : _generate gen (_fit_prompt_to_ctx sys tmpl ch ctx) none with
    | ok out =>
      cases hmc : mapChunks gen tmpl sys rest ctx with
      | ok pc =>
        obtain ⟨ps, c2⟩ := pc
        have hrec := ih ctx
        rw [hmc] at hrec
        simp only [exCtx] at hrec
        simp only [hg, hmc, exCtx]
        exact hrec
      | error e =>
        obtain ⟨e0, c2⟩ := e
        have hrec := ih ctx
        rw [hmc] at hrec
        simp only [exCtx] at hrec
        simp only [hg, hmc, exCtx]
        exact hrec
    | error msg =>
      by_cases hov : (containsSub msg.toList "maximum context length".toList ||
          containsSub msg.toList "exceeded maximum context length".toList) = true
      · have htier : ∀ c2 : ℕ,
            c2 = (if containsSub msg.toList "512".toList = true then 512
                  else if containsSub msg.toList "1024".toList = true then 1024
                  else 768) →
            c2 = 512 ∨ c2 = 1024 ∨ c2 = 768 := by
          intro c2 hc2
          split_ifs at hc2
          · exact Or.inl hc2
          · exact Or.inr (Or.inl hc2)
          · exact Or.inr (Or.inr hc2)
        set newCtx := (if containsSub msg.toList "512".toList = true then 512
                  else if containsSub msg.toList "1024".toList = true then 1024
                  else 768) with hnc
        cases hg2 : _generate gen (_fit_prompt_to_ctx sys tmpl ch newCtx)
            (some (min 140 MAX_NEW_TOKENS)) with
        | ok out2 =>
          cases hmc : mapChunks gen tmpl sys rest newCtx with
          | ok pc =>
            obtain ⟨ps, c2⟩ := pc
            have hrec := ih newCtx
            rw [hmc] at hrec
            simp only [exCtx] at hrec
            simp only [hg, hov, if_true, hg2, hmc, exCtx, ← hnc]
            rcases hrec with hrec | hrec
            · right; exact htier c2 (hrec.trans hnc)
            · right; exact hrec
          | error e =>
            obtain ⟨e0, c2⟩ := e
            have hrec := ih newCtx
            rw [hmc] at hrec
            simp only [exCtx] at hrec
            simp only [hg, hov, if_true, hg2, hmc, exCtx, ← hnc]
            rcases hrec with hrec | hrec
            · right; exact htier c2 (hrec.trans hnc)
            · right; exact hrec
        | error e2 =>
          simp only [hg, hov, if_true, hg2, exCtx, ← hnc]
          right
          exact htier newCtx hnc
      · have hov2 : (containsSub msg.toList "maximum context length".toList ||
            containsSub msg.toList "exceeded maximum context length".toList) = false := by
          simpa using hov
        simp only [hg, hov2, exCtx]
        left; rfl

/-- An oracle whose first-attempt calls (output cap `MAX_NEW_TOKENS`) raise a
context-overflow naming 512, while the reduced-cap retries succeed. -/
def c9_gen512 : GenOracle := fun _ m =>
  if m = MAX_NEW_TOKENS then
    .error "Requested tokens (600) exceed maximum context length of 512"
  else .ok "k".toList

/-- An oracle that always succeeds. -/
def c9_genOK : GenOracle := fun _ _ => .ok "k".toList

def c9_tmpl : Str := "Vat samen.".toList

/-- C9: the context budget `_effective_ctx` is process-global, sticky state.
(1) Every `summarize_document` call either leaves the global untouched or
overwrites it with a fallback tier 512 / 1024 / 768 — also when it raises;
(2) once the budget is below the configured `N_CTX` it is never restored to
it; (3) concretely: a call that hits a context-overflow naming 512 returns
with the global overwritten to 512, and (4) a subsequent call in the same
process starts from — and stays at — the reduced budget 512 ≠ `N_CTX`. -/
theorem c9_sticky (gen : GenOracle) (tmpl : Str) (dt : String) (txt : Str)
    (ctx : ℕ) :
    (exCtxS (summarize_document gen tmpl dt txt ctx) = ctx ∨
     exCtxS (summarize_document gen tmpl dt txt ctx) = 512 ∨
     exCtxS (summarize_document gen tmpl dt txt ctx) = 1024 ∨
     exCtxS (summarize_document gen tmpl dt txt ctx) = 768) ∧
    (ctx ≠ N_CTX → exCtxS (summarize_document gen tmpl dt txt ctx) ≠ N_CTX) ∧
    summarize_document c9_gen512 c9_tmpl "PV" "hallo".toList N_CTX
      = .ok ("k".toList, 512) ∧
    summarize_document c9_genOK c9_tmpl "PV" "hallo".toList 512
      = .ok ("k".toList, 512) ∧
    (512 : ℕ) ≠ N_CTX := by
  have hmain :
      exCtxS (summarize_document gen tmpl dt txt ctx) = ctx ∨
      exCtxS (summarize_document gen tmpl dt txt ctx) = 512 ∨
      exCtxS (summarize_document gen tmpl dt txt ctx) = 1024 ∨
      exCtxS (summarize_document gen tmpl dt txt ctx) = 768 := by
    have hmc := mapChunks_ctx gen tmpl summarize_system_msg
      (_chunk (_summarize_input_text dt txt) MAX_CHARS_PER_CHUNK) ctx
    unfold summarize_document
    dsimp only
    split
    · left; rfl
    · split
      · rename_i e heq
        rw [heq] at hmc
        obtain ⟨e0, c2⟩ := e
        simpa [exCtx, exCtxS] using hmc
      · rename_i partials c2 heq
        rw [heq] at hmc
        simp only [exCtx] at hmc
        cases hr : reduceLoopF gen summarize_system_msg c2
            (if AGGREGATE_MAX_PARTIALS < partials.length then
              partials.take AGGREGATE_MAX_PARTIALS else partials).length
            (if AGGREGATE_MAX_PARTIALS < partials.length then
              partials.take AGGREGATE_MAX_PARTIALS else partials) 0 with
        | ok fr =>
          obtain ⟨final, rounds⟩ := fr
          simp only [hr, exCtxS]
          exact hmc
        | error e =>
          simp only [hr, exCtxS]
          exact hmc
  refine ⟨hmain, ?_, by decide, by decide, by decide⟩
  intro hne
  rcases hmain with h | h | h | h <;> rw [h] <;> first
    | exact hne
    | decide

/-- Witness for `c9_sticky` at a concrete oracle, template and budget. -/
theorem c9_sticky_witness :
    (exCtxS (summarize_document c9_genOK c9_tmpl "PV" "hallo".toList 512) = 512 ∨
     exCtxS (summarize_document c9_genOK c9_tmpl "PV" "hallo".toList 512) = 512 ∨
     exCtxS (summarize_document c9_genOK c9_tmpl "PV" "hallo".toList 512) = 1024 ∨
     exCtxS (summarize_document c9_genOK c9_tmpl "PV" "hallo".toList 512) = 768) ∧
    ((512 : ℕ) ≠ N_CTX →
      exCtxS (summarize_document c9_genOK c9_tmpl "PV" "hallo".toList 512) ≠ N_CTX) ∧
    summarize_document c9_gen512 c9_tmpl "PV" "hallo".toList N_CTX
      = .ok ("k".toList, 512) ∧
    summarize_document c9_genOK c9_tmpl "PV" "hallo".toList 512
      = .ok ("k".toList, 512) ∧
    (512 : ℕ) ≠ N_CTX :=
  c9_sticky c9_genOK c9_tmpl "PV" "hallo".toList 512

-- ===========================================================================
-- C5 : classify_document (prefix shortcut, scoring, priority tie-break)
-- ===========================================================================

/-- `better` keeps the running best or installs the candidate. -/
theorem better_cases (pri : List String) (acc : BestAcc) (s : ℕ) (d : String)
    (k : Str) : better pri acc s d k = acc ∨ better pri acc s d k = ⟨s, d, k⟩ := by
  unfold better
  split
  · right; rfl
  · left; rfl

/-- `better` always holds the larger of the two scores. -/
theorem better_score (pri : List String) (acc : BestAcc) (s : ℕ) (d : String)
    (k : Str) : (better pri acc s d k).score = max acc.score s := by
  unfold better
  split
  · rename_i h
    show s = max acc.score s
    rcases h with h | ⟨h, _⟩
    · omega
    · omega
  · rename_i h
    push_neg at h
    show acc.score = max acc.score s
    have hle : s ≤ acc.score := h.1
    omega

theorem foldBetter_append (pri : List String) (acc : BestAcc)
    (l1 l2 : List Cand) :
    foldBetter pri acc (l1 ++ l2) = foldBetter pri (foldBetter pri acc l1) l2 := by
  unfold foldBetter
  rw [List.foldl_append]

/-- The fold result is the initial accumulator or one of the candidates. -/
theorem foldBetter_provenance (pri : List String) :
    ∀ (l : List Cand) (acc : BestAcc),
      foldBetter pri acc l = acc ∨
      ∃ c ∈ l, foldBetter pri acc l = ⟨c.1, c.2.1, c.2.2⟩ := by
  intro l
  induction l with
  | nil => intro acc; left; rfl
  | cons c rest ih =>
    intro acc
    have hstep : foldBetter pri acc (c :: rest)
        = foldBetter pri (better pri acc c.1 c.2.1 c.2.2) rest := rfl
    rcases ih (better pri acc c.1 c.2.1 c.2.2) with h | ⟨c', hc', h⟩
    · rcases better_cases pri acc c.1 c.2.1 c.2.2 with hb | hb
      · left; rw [hstep, h, hb]
      · right; exact ⟨c, List.mem_cons_self c rest, by rw [hstep, h, hb]⟩
    · right; exact ⟨c', List.mem_cons_of_mem c hc', by rw [hstep, h]⟩

/-- The fold result's score is the best of the initial score and all
candidate scores. -/
theorem foldBetter_score (pri : List String) :
    ∀ (l : List Cand) (acc : BestAcc),
      (foldBetter pri acc l).score = max acc.score (maxScore l) := by
  intro l
  induction l with
  | nil =>
    intro acc
    show acc.score = max acc.score 0
    omega
  | cons c rest ih =>
    intro acc
    have hstep : foldBetter pri acc (c :: rest)
        = foldBetter pri (better pri acc c.1 c.2.1 c.2.2) rest := rfl
    rw [hstep, ih, better_score]
    show max (max acc.score c.1) (maxScore rest) = max acc.score (maxScore (c :: rest))
    have hm : maxScore (c :: rest) = max c.1 (maxScore rest) := rfl
    rw [hm, Nat.max_assoc]

/-- Among all max-score contenders (the initial accumulator if it ties, and
every tying candidate), the fold result has the least priority index. -/
theorem foldBetter_tie (pri : List String) :
    ∀ (l : List Cand) (acc : BestAcc),
      (acc.score = (foldBetter pri acc l).score →
        priority_index pri (foldBetter pri acc l).dtype
          ≤ priority_index pri acc.dtype) ∧
      (∀ c ∈ l, c.1 = (foldBetter pri acc l).score →
        priority_index pri (foldBetter pri acc l).dtype
          ≤ priority_index pri c.2.1) := by
  intro l
  induction l with
  | nil =>
    intro acc
    refine ⟨fun _ => le_refl _, ?_⟩
    intro c hc
    simp at hc
  | cons c0 rest ih =>
    intro acc
    have hstep : foldBetter pri acc (c0 :: rest)
        = foldBetter pri (better pri acc c0.1 c0.2.1 c0.2.2) rest := rfl
    obtain ⟨ih1, ih2⟩ := ih (better pri acc c0.1 c0.2.1 c0.2.2)
    have hscore : (better pri acc c0.1 c0.2.1 c0.2.2).score
        ≤ (foldBetter pri (better pri acc c0.1 c0.2.1 c0.2.2) rest).score := by
      rw [foldBetter_score]
      exact le_max_left _ _
    have hbs : (better pri acc c0.1 c0.2.1 c0.2.2).score = max acc.score c0.1 :=
      better_score pri acc c0.1 c0.2.1 c0.2.2
    by_cases hcond : acc.score < c0.1 ∨
        (c0.1 = acc.score ∧
          priority_index pri c0.2.1 < priority_index pri acc.dtype)
    · -- the candidate c0 is installed
      have htaken : better pri acc c0.1 c0.2.1 c0.2.2 = ⟨c0.1, c0.2.1, c0.2.2⟩ := by
        unfold better
        rw [if_pos hcond]
      have hs' : (better pri acc c0.1 c0.2.1 c0.2.2).score = c0.1 := by rw [htaken]
      have hd' : (better pri acc c0.1 c0.2.1 c0.2.2).dtype = c0.2.1 := by rw [htaken]
      constructor
      · intro hacc
        rw [hstep] at hacc ⊢
        rcases hcond with hlt | ⟨heq, hpi⟩
        · exfalso
          omega
        · have h1 := ih1 (by omega)
          rw [hd'] at h1
          exact le_trans h1 (le_of_lt hpi)
      · intro c hc hcs
        rw [hstep] at hcs ⊢
        rcases List.mem_cons.mp hc with rfl | hc'
        · have h1 := ih1 (by omega)
          rw [hd'] at h1
          exact h1
        · exact ih2 c hc' hcs
    · -- the candidate c0 is rejected
      have hnot : better pri acc c0.1 c0.2.1 c0.2.2 = acc := by
        unfold better
        rw [if_neg hcond]
      have hs' : (better pri acc c0.1 c0.2.1 c0.2.2).score = acc.score := by rw [hnot]
      have hd' : (better pri acc c0.1 c0.2.1 c0.2.2).dtype = acc.dtype := by rw [hnot]
      push_neg at hcond
      obtain ⟨hle', htie⟩ := hcond
      constructor
      · intro hacc
        rw [hstep] at hacc ⊢
        have h1 := ih1 (by omega)
        rw [hd'] at h1
        exact h1
      · intro c hc hcs
        rw [hstep] at hcs ⊢
        rcases List.mem_cons.mp hc with rfl | hc'
        · have h1 := ih1 (by omega)
          rw [hd'] at h1
          exact le_trans h1 (htie (by omega))
        · exact ih2 c hc' hcs

/-- The phrase loop is the candidate fold over the matching phrases. -/
theorem scanPhrases_eq (pri : List String) (hay : Str) (dt : String) :
    ∀ (ps : List Str) (acc : BestAcc),
      scanPhrases pri hay dt ps acc = foldBetter pri acc (phraseCands hay dt ps) := by
  intro ps
  induction ps with
  | nil => intro acc; rfl
  | cons p rest ih =>
    intro acc
    have hf : scanPhrases pri hay dt (p :: rest) acc
        = scanPhrases pri hay dt rest
            (if _prep_for_search p ≠ [] ∧ containsSub hay (_prep_for_search p) = true
             then better pri acc (100 + (_prep_for_search p).length) dt p
             else acc) := rfl
    by_cases h : _prep_for_search p ≠ [] ∧ containsSub hay (_prep_for_search p) = true
    · have hc : phraseCands hay dt (p :: rest)
          = (100 + (_prep_for_search p).length, dt, p) :: phraseCands hay dt rest := by
        unfold phraseCands
        rw [List.filterMap_cons]
        simp only [if_pos h]
      rw [hf, if_pos h, ih, hc]
      rfl
    · have hc : phraseCands hay dt (p :: rest) = phraseCands hay dt rest := by
        unfold phraseCands
        rw [List.filterMap_cons]
        simp only [if_neg h]
      rw [hf, if_neg h, ih, hc]

/-- The token loop is the candidate fold over the matching tokens. -/
theorem scanTokens_eq (pri : List String) (hay : Str) (dt : String) :
    ∀ (ts : List Str) (acc : BestAcc),
      scanTokens pri hay dt ts acc = foldBetter pri acc (tokenCands hay dt ts) := by
  intro ts
  induction ts with
  | nil => intro acc; rfl
  | cons t rest ih =>
    intro acc
    have hf : scanTokens pri hay dt (t :: rest) acc
        = scanTokens pri hay dt rest
            (if _prep_for_search t ≠ [] ∧ _token_match hay (_prep_for_search t) = true
             then better pri acc (10 + (_prep_for_search t).length) dt t
             else acc) := rfl
    by_cases h : _prep_for_search t ≠ [] ∧ _token_match hay (_prep_for_search t) = true
    · have hc : tokenCands hay dt (t :: rest)
          = (10 + (_prep_for_search t).length, dt, t) :: tokenCands hay dt rest := by
        unfold tokenCands
        rw [List.filterMap_cons]
        simp only [if_pos h]
      rw [hf, if_pos h, ih, hc]
      rfl
    · have hc : tokenCands hay dt (t :: rest) = tokenCands hay dt rest := by
        unfold tokenCands
        rw [List.filterMap_cons]
        simp only [if_neg h]
      rw [hf, if_neg h, ih, hc]

/-- `_best_match` is the candidate fold over every candidate it considers. -/
theorem best_match_fold (hay : Str) (pri : List String) :
    ∀ (rs : List (String × Rule)) (acc : BestAcc),
      rs.foldl (fun acc tr => scanTokens pri hay tr.1 tr.2.tokens
          (scanPhrases pri hay tr.1 tr.2.phrases acc)) acc
        = foldBetter pri acc (allCands hay rs) := by
  intro rs
  induction rs with
  | nil => intro acc; rfl
  | cons tr rest ih =>
    intro acc
    show rest.foldl _
        (scanTokens pri hay tr.1 tr.2.tokens
          (scanPhrases pri hay tr.1 tr.2.phrases acc)) = _
    rw [ih, scanPhrases_eq, scanTokens_eq]
    have ha : allCands hay (tr :: rest)
        = (phraseCands hay tr.1 tr.2.phrases ++ tokenCands hay tr.1 tr.2.tokens)
          ++ allCands hay rest := by
      unfold allCands
      rw [List.flatMap_cons]
    rw [ha, foldBetter_append, foldBetter_append]

theorem best_match_as_fold (hay : Str) (pri : List String)
    (rs : List (String × Rule)) :
    _best_match hay rs pri = foldBetter pri ⟨0, "", []⟩ (allCands hay rs) :=
  best_match_fold hay pri rs ⟨0, "", []⟩

theorem rules_eq : rules = allowed_types.map (fun t => (t, mkRule t)) := rfl

/-- The candidate list decomposes per allowed type. -/
theorem allCands_map (hay : Str) :
    ∀ ts : List String,
      allCands hay (ts.map (fun t => (t, mkRule t)))
        = ts.flatMap (fun t => typeCands hay t) := by
  intro ts
  induction ts with
  | nil => rfl
  | cons t rest ih =>
    show typeCands hay t ++ allCands hay (rest.map (fun t => (t, mkRule t))) = _
    rw [ih, List.flatMap_cons]

theorem allCands_rules (hay : Str) :
    allCands hay rules = allowed_types.flatMap (fun t => typeCands hay t) := by
  rw [rules_eq, allCands_map]

theorem phraseCands_dtype (hay : Str) (dt : String) (ps : List Str) (c : Cand)
    (hc : c ∈ phraseCands hay dt ps) : c.2.1 = dt := by
  unfold phraseCands at hc
  obtain ⟨p, _, hsome⟩ := List.mem_filterMap.mp hc
  by_cases h : _prep_for_search p ≠ [] ∧ containsSub hay (_prep_for_search p) = true
  · rw [if_pos h] at hsome
    simp only [Option.some.injEq] at hsome
    rw [← hsome]
  · rw [if_neg h] at hsome
    simp at hsome

theorem tokenCands_dtype (hay : Str) (dt : String) (ts : List Str) (c : Cand)
    (hc : c ∈ tokenCands hay dt ts) : c.2.1 = dt := by
  unfold tokenCands at hc
  obtain ⟨t, _, hsome⟩ := List.mem_filterMap.mp hc
  by_cases h : _prep_for_search t ≠ [] ∧ _token_match hay (_prep_for_search t) = true
  · rw [if_pos h] at hsome
    simp only [Option.some.injEq] at hsome
    rw [← hsome]
  · rw [if_neg h] at hsome
    simp at hsome

theorem typeCands_dtype (hay : Str) (t : String) (c : Cand)
    (hc : c ∈ typeCands hay t) : c.2.1 = t := by
  unfold typeCands at hc
  rcases List.mem_append.mp hc with h | h
  · exact phraseCands_dtype hay t _ c h
  · exact tokenCands_dtype hay t _ c h

theorem le_maxScore (l : List Cand) : ∀ c ∈ l, c.1 ≤ maxScore l := by
  induction l with
  | nil => intro c hc; simp at hc
  | cons d rest ih =>
    intro c hc
    rcases List.mem_cons.mp hc with rfl | h
    · show c.1 ≤ max c.1 (maxScore rest)
      exact le_max_left _ _
    · exact le_trans (ih c h)
        (show maxScore rest ≤ max d.1 (maxScore rest) from le_max_right _ _)

theorem maxScore_achieved (l : List Cand) :
    maxScore l = 0 ∨ ∃ c ∈ l, c.1 = maxScore l := by
  induction l with
  | nil => left; rfl
  | cons d rest ih =>
    have hcons : maxScore (d :: rest) = max d.1 (maxScore rest) := rfl
    rcases ih with h0 | ⟨c, hc, hcs⟩
    · by_cases hd : d.1 = 0
      · left
        rw [hcons, h0, hd]
        omega
      · right
        refine ⟨d, List.mem_cons_self d rest, ?_⟩
        rw [hcons, h0]
        omega
    · by_cases hcmp : d.1 ≤ maxScore rest
      · right
        refine ⟨c, List.mem_cons_of_mem d hc, ?_⟩
        rw [hcons, max_eq_right hcmp]
        exact hcs
      · right
        refine ⟨d, List.mem_cons_self d rest, ?_⟩
        rw [hcons, max_eq_left (le_of_not_le hcmp)]

theorem typeScore_le_max (hay : Str) (t : String) (ht : t ∈ allowed_types) :
    typeScore hay t ≤ maxScore (allCands hay rules) := by
  rcases maxScore_achieved (typeCands hay t) with h0 | ⟨c, hc, hcs⟩
  · show maxScore (typeCands hay t) ≤ _
    rw [h0]
    exact Nat.zero_le _
  · have hmem : c ∈ allCands hay rules := by
      rw [allCands_rules]
      exact List.mem_flatMap.mpr ⟨t, ht, hc⟩
    calc typeScore hay t = c.1 := hcs.symm
    _ ≤ maxScore (allCands hay rules) := le_maxScore _ c hmem

/-- `_best_match` computes the specification's argmax: when its score is
positive, the returned type is a best type (maximal score over the allowed
types, least priority index among ties); its score is zero exactly when no
allowed type matches at all. -/
theorem best_match_spec (hay : Str) :
    (0 < (_best_match hay rules priority).score →
      IsBestType hay (_best_match hay rules priority).dtype ∧
      typeScore hay (_best_match hay rules priority).dtype
        = (_best_match hay rules priority).score) ∧
    ((_best_match hay rules priority).score = 0 ↔ noCandidates hay) := by
  have hfold := best_match_as_fold hay priority rules
  have hsc : (_best_match hay rules priority).score = maxScore (allCands hay rules) := by
    rw [hfold, foldBetter_score]
    show max 0 _ = _
    omega
  have hle : ∀ u ∈ allowed_types, typeScore hay u ≤ (_best_match hay rules priority).score := by
    intro u hu
    rw [hsc]
    exact typeScore_le_max hay u hu
  have hmem_le : ∀ c ∈ allCands hay rules, ∃ u ∈ allowed_types,
      c.2.1 = u ∧ c.1 ≤ typeScore hay u := by
    intro c hc
    rw [allCands_rules] at hc
    obtain ⟨u, hu, hcu⟩ := List.mem_flatMap.mp hc
    exact ⟨u, hu, typeCands_dtype hay u c hcu, le_maxScore _ c hcu⟩
  constructor
  · intro hpos
    rcases foldBetter_provenance priority (allCands hay rules) ⟨0, "", []⟩ with
        h | ⟨c, hc, h⟩
    · rw [hfold, h] at hpos
      exact absurd hpos (by simp)
    · have hd : (_best_match hay rules priority).dtype = c.2.1 := by rw [hfold, h]
      have hs : (_best_match hay rules priority).score = c.1 := by rw [hfold, h]
      obtain ⟨u, hu, hcu, hcle⟩ := hmem_le c hc
      have hts : typeScore hay (_best_match hay rules priority).dtype
          = (_best_match hay rules priority).score := by
        rw [hd, hcu]
        have h1 : typeScore hay u ≤ (_best_match hay rules priority).score :=
          hle u hu
        rw [hs] at h1 ⊢
        omega
      refine ⟨⟨?_, ?_, ?_, ?_⟩, hts⟩
      · rw [hd, hcu]; exact hu
      · rw [hts]; exact hpos
      · intro v hv
        rw [hts]
        exact hle v hv
      · intro v hv hveq
        rcases maxScore_achieved (typeCands hay v) with h0 | ⟨c', hc', hcs'⟩
        · exfalso
          have : typeScore hay v = 0 := h0
          rw [hveq, hts] at this
          omega
        · have hc'mem : c' ∈ allCands hay rules := by
            rw [allCands_rules]
            exact List.mem_flatMap.mpr ⟨v, hv, hc'⟩
          have hc'd : c'.2.1 = v := typeCands_dtype hay v c' hc'
          have hc's : c'.1 = (_best_match hay rules priority).score := by
            have : typeScore hay v = c'.1 := hcs'.symm
            rw [hveq, hts] at this
            omega
          have := (foldBetter_tie priority (allCands hay rules) ⟨0, "", []⟩).2
            c' hc'mem (by rw [← hfold]; exact hc's)
          rw [← hfold, hc'd] at this
          exact this
  · constructor
    · intro h0 u hu
      have h1 := hle u hu
      rw [h0] at h1
      omega
    · intro hall
      rw [hsc]
      rcases maxScore_achieved (allCands hay rules) with h0 | ⟨c, hc, hcs⟩
      · exact h0
      · obtain ⟨u, hu, _, hcle⟩ := hmem_le c hc
        have := hall u hu
        omega

/-- Every allowed type code is a nonempty string. -/
theorem allowed_types_ne_empty : ∀ t ∈ allowed_types, t ≠ "" := by decide

/-- C5: `classify_document` first applies the filename-prefix shortcut (the
first normalized token of the filename stem, if it is an allowed type code,
is returned immediately); otherwise it scores every rule against the
prepared filename — phrase matches scoring 100 + length, token matches
10 + length — and returns the best-scoring type (ties broken by the fixed
priority order) when any score is positive; otherwise the same scoring
applies to the first 8000 characters of the content; otherwise (in
particular for empty or whitespace-only text, with no failure) it returns
"UNKNOWN". -/
theorem c5_classifier (path text : Str) :
    (_detect_type_from_filename_prefix_code (pathNameChars path) allowed_types ≠ none →
      some (classify_document path text)
        = _detect_type_from_filename_prefix_code (pathNameChars path) allowed_types) ∧
    (_detect_type_from_filename_prefix_code (pathNameChars path) allowed_types = none →
      (hasBestCandidate (_prep_for_search (pathNameChars path)) →
        IsBestType (_prep_for_search (pathNameChars path))
          (classify_document path text)) ∧
      (noCandidates (_prep_for_search (pathNameChars path)) →
        hasBestCandidate (_prep_for_search (text.take 8000)) →
        IsBestType (_prep_for_search (text.take 8000))
          (classify_document path text)) ∧
      (noCandidates (_prep_for_search (pathNameChars path)) →
        noCandidates (_prep_for_search (text.take 8000)) →
        classify_document path text = "UNKNOWN")) := by
  cases hpre : _detect_type_from_filename_prefix_code (pathNameChars path)
      allowed_types with
  | some t =>
    refine ⟨fun _ => ?_, fun hn => absurd hn (by simp)⟩
    have : classify_document path text = t := by
      unfold classify_document
      rw [hpre]
    rw [this]
  | none =>
    refine ⟨fun hn => absurd rfl hn, fun _ => ?_⟩
    have hcl : classify_document path text =
        (if 0 < (_best_match (_prep_for_search (pathNameChars path)) rules
              priority).score ∧
            (_best_match (_prep_for_search (pathNameChars path)) rules
              priority).dtype ≠ "" then
          (_best_match (_prep_for_search (pathNameChars path)) rules priority).dtype
        else if 0 < (_best_match (_prep_for_search (text.take 8000)) rules
              priority).score ∧
            (_best_match (_prep_for_search (text.take 8000)) rules
              priority).dtype ≠ "" then
          (_best_match (_prep_for_search (text.take 8000)) rules priority).dtype
        else "UNKNOWN") := by
      unfold classify_document
      rw [hpre]
    obtain ⟨hpos1, hzero1⟩ := best_match_spec (_prep_for_search (pathNameChars path))
    obtain ⟨hpos2, hzero2⟩ := best_match_spec (_prep_for_search (text.take 8000))
    refine ⟨?_, ?_, ?_⟩
    · intro hbest
      obtain ⟨u, hu, hup⟩ := hbest
      have hs1 : 0 < (_best_match (_prep_for_search (pathNameChars path)) rules
          priority).score := by
        rcases Nat.eq_zero_or_pos (_best_match (_prep_for_search (pathNameChars path))
            rules priority).score with h0 | h
        · have := (hzero1.mp h0) u hu
          omega
        · exact h
      obtain ⟨hib, _⟩ := hpos1 hs1
      have hne : (_best_match (_prep_for_search (pathNameChars path)) rules
          priority).dtype ≠ "" :=
        allowed_types_ne_empty _ hib.1
      rw [hcl, if_pos ⟨hs1, hne⟩]
      exact hib
    · intro hnone hbest
      have hs1 : (_best_match (_prep_for_search (pathNameChars path)) rules
          priority).score = 0 := hzero1.mpr hnone
      obtain ⟨u, hu, hup⟩ := hbest
      have hs2 : 0 < (_best_match (_prep_for_search (text.take 8000)) rules
          priority).score := by
        rcases Nat.eq_zero_or_pos (_best_match (_prep_for_search (text.take 8000))
            rules priority).score with h0 | h
        · have := (hzero2.mp h0) u hu
          omega
        · exact h
      obtain ⟨hib, _⟩ := hpos2 hs2
      have hne : (_best_match (_prep_for_search (text.take 8000)) rules
          priority).dtype ≠ "" :=
        allowed_types_ne_empty _ hib.1
      rw [hcl, if_neg (fun hco => absurd hco.1 (by omega)), if_pos ⟨hs2, hne⟩]
      exact hib
    · intro hnone1 hnone2
      have hs1 : (_best_match (_prep_for_search (pathNameChars path)) rules
          priority).score = 0 := hzero1.mpr hnone1
      have hs2 : (_best_match (_prep_for_search (text.take 8000)) rules
          priority).score = 0 := hzero2.mpr hnone2
      rw [hcl, if_neg (fun hco => absurd hco.1 (by omega)),
        if_neg (fun hco => absurd hco.1 (by omega))]

/-- Witness for `c5_classifier` on a concrete filename and text. -/
theorem c5_classifier_witness :
    (_detect_type_from_filename_prefix_code (pathNameChars "verhoor.pdf".toList)
        allowed_types ≠ none →
      some (classify_document "verhoor.pdf".toList "".toList)
        = _detect_type_from_filename_prefix_code (pathNameChars "verhoor.pdf".toList)
            allowed_types) ∧
    (_detect_type_from_filename_prefix_code (pathNameChars "verhoor.pdf".toList)
        allowed_types = none →
      (hasBestCandidate (_prep_for_search (pathNameChars "verhoor.pdf".toList)) →
        IsBestType (_prep_for_search (pathNameChars "verhoor.pdf".toList))
          (classify_document "verhoor.pdf".toList "".toList)) ∧
      (noCandidates (_prep_for_search (pathNameChars "verhoor.pdf".toList)) →
        hasBestCandidate (_prep_for_search (("".toList : Str).take 8000)) →
        IsBestType (_prep_for_search (("".toList : Str).take 8000))
          (classify_document "verhoor.pdf".toList "".toList)) ∧
      (noCandidates (_prep_for_search (pathNameChars "verhoor.pdf".toList)) →
        noCandidates (_prep_for_search (("".toList : Str).take 8000)) →
        classify_document "verhoor.pdf".toList "".toList = "UNKNOWN")) :=
  c5_classifier "verhoor.pdf".toList "".toList

end FS
